import Mathlib

/-!
Verification of the core of the SpineExportAtlasUnpacker repository: the sidecar
text-format parser and serializer (`atlas_parser.py`) and the region
extraction / guillotine packing engine (`atlas_splitter.py`).

Modelling conventions, used throughout:
* A line of text is a `List Char` (the Python code reads lines with the newline
  stripped and processes them as strings); whole files are `List Line`, with the
  serializers producing the same line sequence that their `f.write` calls emit.
* A PIL bitmap is modelled by its dimensions `(width, height) : Int × Int`:
  none of the verified properties depend on pixel content, only on sizes and
  placement coordinates, and PIL guarantees the dimensions determine the crop,
  transpose and paste behaviour used here.
* Python machine integers are arbitrary-precision, so they are embedded as `Int`
  (or `Nat` where the quantity is a count by construction).
* Fallible Python code (raised exceptions) is embedded with `Option`/`Except`.
-/

namespace Spine

/-- A line of sidecar text (newline already stripped), as a list of characters. -/
abbrev Line := List Char

/-- Characters removed by Python's `str.strip` (the whitespace forms that can
occur in the texts this development manipulates). -/
def isPySpace (c : Char) : Bool :=
  c == ' ' || c == '\t' || c == '\n' || c == '\r'

/-- Python `str.strip` applied from the left only. -/
def trimLeft (l : Line) : Line := l.dropWhile isPySpace

/-- Python `str.strip`: drop whitespace from both ends. -/
def pyStrip (l : Line) : Line := ((trimLeft l).reverse.dropWhile isPySpace).reverse

/-- Python `line.startswith(' ')`. -/
def startsWith1Space : Line → Bool
  | ' ' :: _ => true
  | _ => false

/-- Python `line.startswith('  ')`. -/
def startsWith2Spaces : Line → Bool
  | ' ' :: ' ' :: _ => true
  | _ => false

/-- Python `line_stripped.endswith('.png')`. -/
def endsWithPng (l : Line) : Bool :=
  match l.reverse with
  | 'g' :: 'n' :: 'p' :: '.' :: _ => true
  | _ => false

/-- Python `':' in s`. -/
def hasColon (l : Line) : Bool := l.any (fun c => c == ':')

/-- The part of `s` before the first `':'`: first component of `s.split(':', 1)`. -/
def beforeColon (l : Line) : Line := l.takeWhile (fun c => c != ':')

/-- The part of `s` after the first `':'`: second component of `s.split(':', 1)`
(meaningful when `hasColon l`). -/
def afterColon (l : Line) : Line := (l.dropWhile (fun c => c != ':')).drop 1

/-- Python `value.replace(' ', '')`. -/
def removeSpaces (l : Line) : Line := l.filter (fun c => c != ' ')

/-- Python `value.split(',')` (all occurrences). -/
def splitComma : Line → List Line
  | [] => [[]]
  | c :: l =>
    if c = ',' then [] :: splitComma l
    else
      match splitComma l with
      | r :: rs => (c :: r) :: rs
      | [] => [[c]]

/-- Lower-casing of one ASCII character, as Python `str.lower` acts on the
characters appearing here. -/
def pyLowerChar (c : Char) : Char :=
  if 'A' ≤ c ∧ c ≤ 'Z' then Char.ofNat (c.toNat + 32) else c

/-- Python `value.lower()`. -/
def pyLower (l : Line) : Line := l.map pyLowerChar

/-- A decimal digit character. -/
def isDigitChar (c : Char) : Bool := 48 ≤ c.toNat && c.toNat ≤ 57

/-- Value of a decimal digit character. -/
def digitVal (c : Char) : Nat := c.toNat - 48

/-- Decimal digit characters of `n`, most significant first (`fuel ≥ n` suffices;
structural in `fuel` so that concrete instances reduce). -/
def natChars : Nat → Nat → List Char
  | 0, _ => []
  | fuel + 1, n => if n = 0 then [] else natChars fuel (n / 10) ++ [Nat.digitChar (n % 10)]

/-- Decimal rendering of a natural number, as Python `str`/f-strings print it. -/
def natStr (n : Nat) : List Char := if n = 0 then ['0'] else natChars n n

/-- Decimal rendering of an integer, as Python f-strings print it. -/
def intStr (n : Int) : List Char :=
  if n < 0 then '-' :: natStr n.natAbs else natStr n.natAbs

/-- Parse a nonempty all-digit character list as a natural number. -/
def parseNatDigits (l : List Char) : Option Nat :=
  if l ≠ [] ∧ l.all isDigitChar then
    some (l.foldl (fun a c => a * 10 + digitVal c) 0)
  else none

/-- Sign-and-digit parsing on an already stripped character list. -/
def pyIntCore : List Char → Option Int
  | '-' :: ds =>
    match parseNatDigits ds with
    | some m => some (-(m : Int))
    | none => none
  | ds =>
    match parseNatDigits ds with
    | some m => some ((m : Int))
    | none => none

/-- Model of Python `int(value)` for the sidecar's numeric fields: surrounding
whitespace stripped, optional minus sign, decimal digits.  (Python's `int`
additionally tolerates a leading `+` and underscores between digits; such forms
never occur in the texts this development manipulates, and a failure is a
`ValueError`, modelled as `none`.) -/
def pyInt (l : Line) : Option Int := pyIntCore (pyStrip l)

/-- Model of Python `map(int, value.replace(' ', '').split(','))` unpacked into
a pair: fails (ValueError) unless there are exactly two comma-separated
integers. -/
def pyIntPair (l : Line) : Option (Int × Int) :=
  match splitComma (removeSpaces l) with
  | [a, b] =>
    match pyInt a, pyInt b with
    | some x, some y => some (x, y)
    | _, _ => none
  | _ => none

/-- The serializer's rendering `f"{a}, {b}"` of an integer pair. -/
def pairChars (a b : Int) : Line := intStr a ++ ',' :: ' ' :: intStr b

/-- The combined-atlas serializer's rendering `f"{w},{h}"` (no space). -/
def pairCharsTight (a b : Int) : Line := intStr a ++ ',' :: intStr b

/-! ## Data model (`atlas_parser.py`)

`AtlasRegion` and `AtlasPage` mirror the Python classes of the same names,
with the same fields and the same defaults. -/

/-- `AtlasRegion` from `atlas_parser.py`. -/
structure AtlasRegion where
  name : Line
  xy : Int × Int
  size : Int × Int
  orig : Int × Int
  offset : Int × Int
  rotate : Bool
  index : Int
deriving DecidableEq

/-- `AtlasPage` from `atlas_parser.py` (field `repeat` is a Lean keyword, so it
is named `repeatMode` here). -/
structure AtlasPage where
  name : Line
  size : Option (Int × Int)
  format : Line
  filter : Line × Line
  repeatMode : Line
  regions : List AtlasRegion
deriving DecidableEq

/-- A freshly constructed `AtlasPage(name)`. -/
def newPage (name : Line) : AtlasPage :=
  { name := name, size := none, format := [], filter := ([], []), repeatMode := [],
    regions := [] }

/-- The region defaults installed at the top of `_parse_region_property`. -/
def initRegion (name : Line) : AtlasRegion :=
  { name := name, xy := (0, 0), size := (0, 0), orig := (0, 0), offset := (0, 0),
    rotate := false, index := -1 }

/-! ## Parser (`AtlasParser.parse_file`)

The Python parser is a `while` loop over a line index, with an inner loop
(`_parse_region_property`) that consumes a region's indented property block and
returns the index of the line *before* the block's terminator; the main loop
then continues at the terminator itself.  That control flow is embedded here as
a single left fold over the lines with an explicit mode: in
`PMode.inRegion r found` the fold is inside the inner loop (current region `r`,
`found` = Python's `properties_found`); the inner loop's `break` corresponds to
flushing the region and re-dispatching the terminating line in normal mode,
which is exactly the Python `i = next_i + 1` hand-off.  The mutable
`self._current_page` (always the most recently appended page) is represented by
modifying the last element of the accumulated page list. -/

/-- Parser mode: top-level scan, or inside a region's property block. -/
inductive PMode where
  | normal
  | inRegion (r : AtlasRegion) (found : Bool)
deriving DecidableEq

/-- Parser state: pages so far, `parsing_page_properties` flag, and mode. -/
structure PState where
  pages : List AtlasPage
  inProps : Bool
  mode : PMode
deriving DecidableEq

/-- Apply `f` to the last element of a list (models mutation through
`self._current_page`, which is always the last appended page). -/
def modLast (f : α → α) : List α → List α
  | [] => []
  | [a] => [f a]
  | a :: b :: l => a :: modLast f (b :: l)

/-- One `key: value` line of `_parse_page_property`, applied to a page: the
stripped line is split at the first `':'`, both halves stripped; `size` parses
an integer pair, `filter` splits on `','` into exactly two stripped names,
`format`/`repeat` take the raw value; a value that fails to parse leaves the
page unchanged (the exception is caught), and unknown keys are ignored. -/
def applyPageProp (p : AtlasPage) (s : Line) : AtlasPage :=
  let key := pyStrip (beforeColon s)
  let value := pyStrip (afterColon s)
  if key = "size".toList then
    match pyIntPair value with
    | some wh => { p with size := some wh }
    | none => p
  else if key = "format".toList then { p with format := value }
  else if key = "filter".toList then
    match splitComma value with
    | [a, b] => { p with filter := (pyStrip a, pyStrip b) }
    | _ => p
  else if key = "repeat".toList then { p with repeatMode := value }
  else p

/-- One indented `key: value` line of `_parse_region_property`, applied to the
in-progress region: `rotate` compares the lower-cased value with `"true"`,
`xy`/`size`/`orig`/`offset` parse integer pairs, `index` parses an integer; a
malformed value drops only that key (the exception is caught), and unknown
keys are ignored. -/
def applyRegionProp (r : AtlasRegion) (s : Line) : AtlasRegion :=
  let key := pyStrip (beforeColon s)
  let value := pyStrip (afterColon s)
  if key = "rotate".toList then { r with rotate := pyLower value = "true".toList }
  else if key = "xy".toList then
    match pyIntPair value with
    | some v => { r with xy := v }
    | none => r
  else if key = "size".toList then
    match pyIntPair value with
    | some v => { r with size := v }
    | none => r
  else if key = "orig".toList then
    match pyIntPair value with
    | some v => { r with orig := v }
    | none => r
  else if key = "offset".toList then
    match pyIntPair value with
    | some v => { r with offset := v }
    | none => r
  else if key = "index".toList then
    match pyInt value with
    | some v => { r with index := v }
    | none => r
  else r

/-- Flush the in-progress region at the end of its block: it is appended to the
current (last) page only if at least one property line was seen
(`properties_found`); with no page yet, or no properties, it is dropped with a
diagnostic. -/
def flushRegion (st : PState) (r : AtlasRegion) (found : Bool) : PState :=
  if found then
    { st with
      pages := modLast (fun p => { p with regions := p.regions ++ [r] }) st.pages,
      mode := .normal }
  else { st with mode := .normal }

/-- The main-loop dispatch of `parse_file` on one line (top-level mode):
blank lines reset `parsing_page_properties`; a non-indented line ending in
`.png` starts a new page; in page-property mode a line containing `':'` is a
page property; a non-indented colon-free line (when a page exists and
page-property mode is off) starts a region block; any other non-indented line
resets `parsing_page_properties`. -/
def stepNormal (st : PState) (l : Line) : PState :=
  let s := pyStrip l
  if s = [] then { st with inProps := false }
  else if startsWith1Space l = false ∧ endsWithPng s = true then
    { st with pages := st.pages ++ [newPage s], inProps := true }
  else if st.inProps = true ∧ hasColon s = true then
    { st with pages := modLast (fun p => applyPageProp p s) st.pages }
  else if st.pages ≠ [] ∧ st.inProps = false ∧ hasColon s = false ∧
      startsWith1Space l = false then
    { st with mode := .inRegion (initRegion s) false }
  else if startsWith1Space l = false then { st with inProps := false }
  else st

/-- One line of the parse: in region mode, a non-blank line that is not
indented by two spaces terminates the block (flush, then re-dispatch the same
line in normal mode — Python's inner-loop `break` plus `i = next_i + 1`); an
indented line containing `':'` is a region property; anything else inside the
block is skipped. -/
def stepLine (st : PState) (l : Line) : PState :=
  match st.mode with
  | .normal => stepNormal st l
  | .inRegion r found =>
    let s := pyStrip l
    if s ≠ [] ∧ startsWith2Spaces l = false then stepNormal (flushRegion st r found) l
    else if startsWith2Spaces l = true ∧ hasColon s = true then
      { st with mode := .inRegion (applyRegionProp r s) true }
    else st

/-- Flush a pending region block, if any (used at block terminators and at end
of input). -/
def settle (st : PState) : PState :=
  match st.mode with
  | .normal => st
  | .inRegion r found => flushRegion st r found

/-- End of input: the inner loop runs off the end of the lines and flushes the
in-progress region, if any. -/
def finishParse (st : PState) : List AtlasPage :=
  match st.mode with
  | .normal => st.pages
  | .inRegion r found => (flushRegion st r found).pages

/-- Model of `AtlasParser.parse_file`: fold the line dispatch over the file's
lines (newlines already stripped) and flush at end of input. -/
def parse_file (lines : List Line) : List AtlasPage :=
  finishParse (lines.foldl stepLine { pages := [], inProps := false, mode := .normal })

/-! ## Serializer (`AtlasParser.save_atlas`)

The serializer is modelled at the same granularity as the parser: as the list
of lines its `f.write` calls produce.  `f.write(f"\n{region.name}\n")` after a
newline-terminated write contributes an empty line followed by the name line,
and the final `f.write("\n")` of each page contributes one empty line. -/

/-- `str(region.rotate).lower()`. -/
def boolChars (b : Bool) : Line := if b then "true".toList else "false".toList

/-- The indented property block `save_atlas` writes for one region
(`index` only when `>= 0`). -/
def regionPropLines (r : AtlasRegion) : List Line :=
  [ "  rotate: ".toList ++ boolChars r.rotate,
    "  xy: ".toList ++ pairChars r.xy.1 r.xy.2,
    "  size: ".toList ++ pairChars r.size.1 r.size.2,
    "  orig: ".toList ++ pairChars r.orig.1 r.orig.2,
    "  offset: ".toList ++ pairChars r.offset.1 r.offset.2 ]
  ++ (if 0 ≤ r.index then ["  index: ".toList ++ intStr r.index] else [])

/-- The page property lines `save_atlas` writes: only the properties that are
set (`size` when present — a Python tuple is always truthy — and
`format`/`filter`/`repeat` when non-empty). -/
def pagePropLines (p : AtlasPage) : List Line :=
  (match p.size with
   | some wh => ["size: ".toList ++ pairChars wh.1 wh.2]
   | none => [])
  ++ (if p.format ≠ [] then ["format: ".toList ++ p.format] else [])
  ++ (if p.filter.1 ≠ [] ∧ p.filter.2 ≠ [] then
        ["filter: ".toList ++ p.filter.1 ++ ", ".toList ++ p.filter.2]
      else [])
  ++ (if p.repeatMode ≠ [] then ["repeat: ".toList ++ p.repeatMode] else [])

/-- The lines `save_atlas` writes for one region: the blank line from
`f.write(f"\n{region.name}\n")`, the name line, and the property block. -/
def regionBlock (r : AtlasRegion) : List Line := [] :: r.name :: regionPropLines r

/-- All lines `save_atlas` writes for one page: name, set properties, then each
region preceded by a blank line, then the page-terminating blank line. -/
def pageLines (p : AtlasPage) : List Line :=
  p.name :: (pagePropLines p ++ p.regions.flatMap regionBlock ++ [[]])

/-- Model of `AtlasParser.save_atlas` as the list of written lines. -/
def save_atlas (pages : List AtlasPage) : List Line := pages.flatMap pageLines

/-! ## Splitter (`atlas_splitter.py`) -/

/-- A PIL bitmap, modelled by its dimensions `(width, height)`. -/
abbrev Image := Int × Int

/-- The metadata snapshot (`region_data` dict) returned by `extract_region`. -/
structure RegionMeta where
  name : Line
  orig : Int × Int
  offset : Int × Int
  rotate : Bool
  index : Int
deriving DecidableEq

/-- `AtlasSplitter.find_region`: scan pages, then each page's regions, in
parse order; first region whose name matches wins. -/
def find_region : List AtlasPage → Line → Option (AtlasPage × AtlasRegion)
  | [], _ => none
  | p :: ps, n =>
    match p.regions.find? (fun r => r.name == n) with
    | some r => some (p, r)
    | none => find_region ps n

/-- Lookup in the splitter's `self.images` dict, keyed by page name. -/
def lookupImage (images : List (Line × Image)) (n : Line) : Option Image :=
  (images.find? (fun e => e.1 == n)).map (fun e => e.2)

instance {ε α : Type} [DecidableEq ε] [DecidableEq α] : DecidableEq (Except ε α) := fun
  | .ok a, .ok b =>
    match decEq a b with
    | isTrue h => isTrue (h ▸ rfl)
    | isFalse h => isFalse (fun hc => h (by cases hc; rfl))
  | .error a, .error b =>
    match decEq a b with
    | isTrue h => isTrue (h ▸ rfl)
    | isFalse h => isFalse (fun hc => h (by cases hc; rfl))
  | .ok _, .error _ => isFalse (fun hc => Except.noConfusion hc)
  | .error _, .ok _ => isFalse (fun hc => Except.noConfusion hc)

/-- How a call to `extract_region` can fail.
`notFound` is the `raise ValueError(f"Region not found: ...")`;
`missingImage` is the `KeyError` from `self.images[page.name]` (outside the
`try`, so it propagates);
`cropFailed` is any exception raised by the crop/rotate block — in the source
the `except` handler then evaluates `return placeholder, region_data` with
`region_data` not yet assigned, so Python raises `UnboundLocalError` instead of
returning the placeholder (see claim C4). -/
inductive ExtractErr where
  | notFound
  | missingImage
  | cropFailed
deriving DecidableEq

/-- Model of `AtlasSplitter.extract_region`: resolve the region, look up its
page bitmap, clamp an out-of-bounds crop rectangle into the bitmap
(`x`/`y` into `[0, dim-1]`, width/height shrunk to the remainder), crop —
`PIL.Image.crop` raises `ValueError` when the box has negative extent — and
transpose (90° rotation swaps the dimensions) when `rotate` is set; return the
bitmap with the metadata snapshot. -/
def extract_region (pages : List AtlasPage) (images : List (Line × Image))
    (region_name : Line) : Except ExtractErr (Image × RegionMeta) :=
  match find_region pages region_name with
  | none => .error .notFound
  | some (page, region) =>
    match lookupImage images page.name with
    | none => .error .missingImage
    | some img =>
      let iw := img.1
      let ih := img.2
      let c :=
        if region.xy.1 < 0 ∨ region.xy.2 < 0 ∨ region.xy.1 + region.size.1 > iw ∨
            region.xy.2 + region.size.2 > ih then
          let x := max 0 (min region.xy.1 (iw - 1))
          let y := max 0 (min region.xy.2 (ih - 1))
          (x, y, min region.size.1 (iw - x), min region.size.2 (ih - y))
        else (region.xy.1, region.xy.2, region.size.1, region.size.2)
      let w := c.2.2.1
      let h := c.2.2.2
      if w < 0 ∨ h < 0 then .error .cropFailed
      else
        .ok ((if region.rotate then ((h, w) : Image) else (w, h)),
          { name := region.name, orig := region.orig, offset := region.offset,
            rotate := region.rotate, index := region.index })

/-! ## Guillotine packer (`create_combined_atlas`) -/

/-- The fixed padding between packed regions. -/
def padding : Int := 2

/-- The local `Node` class: a leaf is unused free space; `split` marks a node
used and gives it `right` and `down` children. -/
inductive Node where
  | free (x y width height : Int)
  | used (x y width height : Int) (right down : Node)
deriving DecidableEq

def Node.x : Node → Int
  | .free a _ _ _ => a
  | .used a _ _ _ _ _ => a

def Node.y : Node → Int
  | .free _ a _ _ => a
  | .used _ a _ _ _ _ => a

def Node.width : Node → Int
  | .free _ _ a _ => a
  | .used _ _ a _ _ _ => a

def Node.height : Node → Int
  | .free _ _ _ a => a
  | .used _ _ _ a _ _ => a

/-- `find_node(w, h)` fused with the `split(w, h)` the caller performs on the
returned node: on a used node recurse into `right` then `down` (first fit); a
free node matches if the dimensions fit directly, *or* — `find_node`'s
rotation fallback — if the 90°-swapped dimensions fit; the matched node is
split exactly as `Node.split` does (`down` below the placed height at full
node width, `right` beside the placed width at the placed height), and the
node's origin is returned as the placement position. -/
def Node.insert (w h : Int) : Node → Option (Node × Int × Int)
  | .free x y wd ht =>
    if (w ≤ wd ∧ h ≤ ht) ∨ (h ≤ wd ∧ w ≤ ht) then
      some (.used x y wd ht
              (.free (x + w + padding) y (wd - w - padding) h)
              (.free x (y + h + padding) wd (ht - h - padding)),
            x, y)
    else none
  | .used x y wd ht r d =>
    match r.insert w h with
    | some (r', pos) => some (.used x y wd ht r' d, pos)
    | none =>
      match d.insert w h with
      | some (d', pos) => some (.used x y wd ht r d', pos)
      | none => none

/-- `Node.insert` restricted to direct fits: the variant of the placement
search in which `find_node`'s swapped-dimensions fallback never matches.  Used
to state the amended no-overlap property (claim C1). -/
def Node.insertD (w h : Int) : Node → Option (Node × Int × Int)
  | .free x y wd ht =>
    if w ≤ wd ∧ h ≤ ht then
      some (.used x y wd ht
              (.free (x + w + padding) y (wd - w - padding) h)
              (.free x (y + h + padding) wd (ht - h - padding)),
            x, y)
    else none
  | .used x y wd ht r d =>
    match r.insertD w h with
    | some (r', pos) => some (.used x y wd ht r' d, pos)
    | none =>
      match d.insertD w h with
      | some (d', pos) => some (.used x y wd ht r d', pos)
      | none => none

/-- One entry of `region_positions` (the `position_data` dict). -/
structure PlacedRegion where
  name : Line
  x : Int
  y : Int
  width : Int
  height : Int
  orig : Int × Int
  offset : Int × Int
  rotate : Bool
  index : Int
deriving DecidableEq

/-- One iteration of the packing loop: try `find_node` with the bitmap's
dimensions; if that fails, retry with the dimensions swapped and transpose the
bitmap (`rotated = True`); on success paste at the node's origin, record the
position, and split the node; otherwise skip the region with a warning. -/
def packStep (acc : Node × List PlacedRegion) (item : Image × RegionMeta) :
    Node × List PlacedRegion :=
  let img := item.1
  match acc.1.insert img.1 img.2 with
  | some (t, pos) =>
    (t, acc.2 ++ [{ name := item.2.name, x := pos.1, y := pos.2,
                    width := img.1, height := img.2, orig := item.2.orig,
                    offset := item.2.offset, rotate := false, index := item.2.index }])
  | none =>
    match acc.1.insert img.2 img.1 with
    | some (t, pos) =>
      (t, acc.2 ++ [{ name := item.2.name, x := pos.1, y := pos.2,
                      width := img.2, height := img.1, orig := item.2.orig,
                      offset := item.2.offset, rotate := true, index := item.2.index }])
    | none => acc

/-- The packing loop over the sorted regions. -/
def packAll (root : Node) (items : List (Image × RegionMeta)) :
    Node × List PlacedRegion :=
  items.foldl packStep (root, [])

/-- `packStep` with placement restricted to direct fits (see `Node.insertD`);
the rotated retry is dropped because whenever `insert` fails on every node so
does its swap (the free-node test is symmetric in the two orientations). -/
def packStepD (acc : Node × List PlacedRegion) (item : Image × RegionMeta) :
    Node × List PlacedRegion :=
  let img := item.1
  match acc.1.insertD img.1 img.2 with
  | some (t, pos) =>
    (t, acc.2 ++ [{ name := item.2.name, x := pos.1, y := pos.2,
                    width := img.1, height := img.2, orig := item.2.orig,
                    offset := item.2.offset, rotate := false, index := item.2.index }])
  | none => acc

/-- The packing loop restricted to direct fits. -/
def packAllD (root : Node) (items : List (Image × RegionMeta)) :
    Node × List PlacedRegion :=
  items.foldl packStepD (root, [])

/-! ## Sorting, canvas sizing, and the full `create_combined_atlas` pipeline -/

/-- The sort key of `regions.sort`: `(area, max(width, height))` of the
extracted bitmap. -/
def sortKey (it : Image × RegionMeta) : Int × Int :=
  (it.1.1 * it.1.2, max it.1.1 it.1.2)

/-- Lexicographic `<=` on sort keys (Python tuple comparison). -/
def keyLeB (a b : Int × Int) : Bool :=
  decide (a.1 < b.1 ∨ (a.1 = b.1 ∧ a.2 ≤ b.2))

/-- "May precede" relation of the descending sort: `a` may stay before `b`
iff `sortKey b <= sortKey a`. -/
def itemLe (a b : Image × RegionMeta) : Bool := keyLeB (sortKey b) (sortKey a)

/-- Stable insertion used by `pySort`: `x` goes after every already placed
element it may follow. -/
def insertSorted (le : α → α → Bool) (x : α) : List α → List α
  | [] => [x]
  | y :: ys => if le y x then y :: insertSorted le x ys else x :: y :: ys

/-- Model of Python's stable `list.sort(key=..., reverse=True)` as a stable
insertion sort with the "may precede" relation `le`: Python's sort is stable
and total, and any two stable sorts with the same relation produce the same
list, so this is extensionally the sort the source performs. -/
def pySort (le : α → α → Bool) (l : List α) : List α :=
  l.foldl (fun acc x => insertSorted le x acc) []

/-- Integer square root by bounded search (largest `k` with `k * k ≤ n`);
structural so that concrete instances reduce. -/
def isqrt (n : Nat) : Nat :=
  (List.range (n + 1)).foldl (fun acc k => if k * k ≤ n then k else acc) 0

/-- Model of `initial_size = int((total_area * 1.3) ** 0.5)`: the binary64
constant `1.3` is modelled by the exact rational `13/10` and the float square
root by the integer square root.  On every concrete input appearing in the
theorems below the two computations agree (the float value is far from an
integer boundary there). -/
def initial_size (total_area : Int) : Int :=
  Int.ofNat (isqrt (total_area * 13 / 10).toNat)

/-- `total_area`: accumulated `(w + padding) * (h + padding)` over the
extracted regions, in extraction order. -/
def total_area (regions : List (Image × RegionMeta)) : Int :=
  regions.foldl (fun a it => a + (it.1.1 + padding) * (it.1.2 + padding)) 0

/-- `max_width`: running maximum of extracted bitmap widths (initially 0). -/
def max_width (regions : List (Image × RegionMeta)) : Int :=
  regions.foldl (fun a it => max a it.1.1) 0

/-- `max_height`: running maximum of extracted bitmap heights (initially 0). -/
def max_height (regions : List (Image × RegionMeta)) : Int :=
  regions.foldl (fun a it => max a it.1.2) 0

/-- The canvas dimensions `(atlas_width, atlas_height)` computed before
packing. -/
def atlasDims (regions : List (Image × RegionMeta)) : Int × Int :=
  let i := initial_size (total_area regions)
  (max i (max_width regions + padding), max i (max_height regions + padding))

/-- The trim step: crop the composite to the bounding box of all placements
plus one padding unit; with no placements the canvas keeps its initial size. -/
def trimDims (positions : List PlacedRegion) (dims : Int × Int) : Int × Int :=
  match positions with
  | [] => dims
  | p :: ps =>
    let mx := ps.foldl (fun a q => max a (q.x + q.width)) (p.x + p.width)
    let my := ps.foldl (fun a q => max a (q.y + q.height)) (p.y + p.height)
    (mx + padding, my + padding)

/-- The part of `create_combined_atlas` from the internal sort onward: sort the
extracted `(bitmap, metadata)` pairs by descending area then max dimension
(stable), size the canvas, run the packing loop, and trim.  (The source wraps
this block in `except Exception`; the block performs only arithmetic, pasting
and an in-bounds crop, so that handler is unreachable in the model.) -/
def combine_regions (regions : List (Image × RegionMeta)) :
    Image × List PlacedRegion :=
  let sorted := pySort itemLe regions
  let dims := atlasDims regions
  let out := packAll (.free 0 0 dims.1 dims.2) sorted
  (trimDims out.2 dims, out.2)

/-- How `create_combined_atlas` can fail. `extractFailed e` is an exception
other than `ValueError` escaping `extract_region` in the first pass (only
`ValueError` is caught there); `noValidRegions` is the explicit
`raise ValueError("No valid regions to combine")`. -/
inductive CombineErr where
  | extractFailed (e : ExtractErr)
  | noValidRegions
deriving DecidableEq

/-- The first pass of `create_combined_atlas`: extract every requested region
in order, skipping names whose extraction raises `ValueError` (region not
found) and propagating any other exception. -/
def first_pass (pages : List AtlasPage) (images : List (Line × Image)) :
    List Line → Except ExtractErr (List (Image × RegionMeta))
  | [] => .ok []
  | n :: ns =>
    match extract_region pages images n with
    | .ok item => (first_pass pages images ns).map (fun l => item :: l)
    | .error .notFound => first_pass pages images ns
    | .error e => .error e

/-- Model of `AtlasSplitter.create_combined_atlas`: first pass, emptiness
check, then sort/size/pack/trim. -/
def create_combined_atlas (pages : List AtlasPage) (images : List (Line × Image))
    (region_names : List Line) : Except CombineErr (Image × List PlacedRegion) :=
  match first_pass pages images region_names with
  | .error e => .error (.extractFailed e)
  | .ok regions =>
    if regions = [] then .error .noValidRegions
    else .ok (combine_regions regions)

/-! ## Combined-atlas serializer (`save_combined_atlas_data`) -/

/-- The `region_map` dict comprehension: keyed by name, later entries
overwrite earlier ones, so lookup finds the last occurrence. -/
def lookupPos (positions : List PlacedRegion) (n : Line) : Option PlacedRegion :=
  positions.reverse.find? (fun p => p.name == n)

/-- The property block `save_combined_atlas_data` writes for a region present
in the new atlas (note: `index` is written unconditionally). -/
def combinedNewLines (pos : PlacedRegion) : List Line :=
  [ "  rotate: ".toList ++ boolChars pos.rotate,
    "  xy: ".toList ++ pairChars pos.x pos.y,
    "  size: ".toList ++ pairChars pos.width pos.height,
    "  orig: ".toList ++ pairChars pos.orig.1 pos.orig.2,
    "  offset: ".toList ++ pairChars pos.offset.1 pos.offset.2,
    "  index: ".toList ++ intStr pos.index ]

/-- The property block `save_combined_atlas_data` writes for a region not in
the new atlas: the original data (note: `index` is written unconditionally). -/
def combinedOrigLines (r : AtlasRegion) : List Line :=
  [ "  rotate: ".toList ++ boolChars r.rotate,
    "  xy: ".toList ++ pairChars r.xy.1 r.xy.2,
    "  size: ".toList ++ pairChars r.size.1 r.size.2,
    "  orig: ".toList ++ pairChars r.orig.1 r.orig.2,
    "  offset: ".toList ++ pairChars r.offset.1 r.offset.2,
    "  index: ".toList ++ intStr r.index ]

/-- Model of `AtlasSplitter.save_combined_atlas_data` as the list of written
lines: fixed header (image name, the combined image's actual dimensions as
`size`, `format: RGBA8888`, `filter: Linear,Linear`, `repeat: none`), then all
regions of the parsed model in original order, each with new position data if
present in `region_positions` and its original data otherwise.  `actual` is
the size of the image file read back from disk. -/
def save_combined_atlas_data (pages : List AtlasPage) (image_name : Line)
    (actual : Int × Int) (region_positions : List PlacedRegion) : List Line :=
  [ image_name,
    "size: ".toList ++ pairCharsTight actual.1 actual.2,
    "format: RGBA8888".toList,
    "filter: Linear,Linear".toList,
    "repeat: none".toList ]
  ++ pages.flatMap (fun p => p.regions.flatMap (fun r =>
       r.name :: (match lookupPos region_positions r.name with
                  | some pos => combinedNewLines pos
                  | none => combinedOrigLines r)))

/-! ## Rectangles and the packing-tree invariant -/

/-- A half-open axis-aligned rectangle `[x1, x2) × [y1, y2)`. -/
structure Rect where
  x1 : Int
  y1 : Int
  x2 : Int
  y2 : Int
deriving DecidableEq

/-- The padding-inclusive footprint of a placement:
`[x, x + width + padding) × [y, y + height + padding)`. -/
def padRect (p : PlacedRegion) : Rect :=
  ⟨p.x, p.y, p.x + p.width + padding, p.y + p.height + padding⟩

/-- Disjointness of half-open rectangles: separated on some axis. -/
def Rect.disjoint (a b : Rect) : Prop :=
  a.x2 ≤ b.x1 ∨ b.x2 ≤ a.x1 ∨ a.y2 ≤ b.y1 ∨ b.y2 ≤ a.y1

instance (a b : Rect) : Decidable (a.disjoint b) := by
  unfold Rect.disjoint; infer_instance

/-- Coordinatewise containment of rectangles. -/
def Rect.inside (a b : Rect) : Prop :=
  b.x1 ≤ a.x1 ∧ a.x2 ≤ b.x2 ∧ b.y1 ≤ a.y1 ∧ a.y2 ≤ b.y2

/-- No two placements overlap, padding-inclusive (the property of claim C1). -/
def pairwiseDisjoint (ps : List PlacedRegion) : Prop :=
  List.Pairwise (fun p q => (padRect p).disjoint (padRect q)) ps

instance (ps : List PlacedRegion) : Decidable (pairwiseDisjoint ps) := by
  unfold pairwiseDisjoint; infer_instance

/-- The padding-inclusive rectangles of the items placed in a packing tree: a
used node whose children were created by `split(w, h)` placed an item whose
padded footprint is `[x, right.x) × [y, down.y)`. -/
def Node.itemRects : Node → List Rect
  | .free _ _ _ _ => []
  | .used x y _ _ r d => ⟨x, y, r.x, d.y⟩ :: (r.itemRects ++ d.itemRects)

/-- The padding-extended box of a node:
`[x, x + width + padding) × [y, y + height + padding)`. -/
def Node.ebox (n : Node) : Rect := ⟨n.x, n.y, n.x + n.width + padding, n.y + n.height + padding⟩

/-- Structural invariant of trees produced by direct-fit packing: every used
node was split by an item of nonnegative dimensions that fit inside it, and
its children are positioned exactly as `Node.split` positions them. -/
def Node.Good : Node → Prop
  | .free _ _ _ _ => True
  | .used x y wd ht r d =>
    ∃ w h, 0 ≤ w ∧ w ≤ wd ∧ 0 ≤ h ∧ h ≤ ht ∧
      r.x = x + w + padding ∧ r.y = y ∧ r.width = wd - w - padding ∧ r.height = h ∧
      d.x = x ∧ d.y = y + h + padding ∧ d.width = wd ∧ d.height = ht - h - padding ∧
      r.Good ∧ d.Good

/-- The `(x, y)` placements recorded for a given region name, in order. -/
def positionsOf (ps : List PlacedRegion) (n : Line) : List (Int × Int) :=
  (ps.filter (fun p => p.name == n)).map (fun p => (p.x, p.y))

/-! ## Canonical models and well-formed sidecar text (claim C2)

"Well-formed sidecar text" is formalised as text in the canonical form of the
§4.1 grammar: the line sequence the serializer itself emits for a model whose
string fields are free of the concrete grammar's delimiters.  `CanonRegion` /
`CanonPage` spell out those side conditions: names are stripped and non-empty,
region names contain no `':'` and do not end in `.png` (such a name would
reparse as a property line or a page line), string property values are
stripped, single-line, do not end in `.png`, and filter components contain no
`','`; `index` is `-1` or nonnegative (the grammar has no index line for a
negative index). -/

/-- `l` is its own Python `strip`. -/
def Stripped (l : Line) : Prop := pyStrip l = l

/-- `l` contains no line-breaking characters (it is one line of text). -/
def OneLine (l : Line) : Prop := ∀ c ∈ l, c ≠ '\n' ∧ c ≠ '\r'

/-- Side conditions on a region under which the serializer's output for it is
canonical grammar text. -/
def CanonRegion (r : AtlasRegion) : Prop :=
  Stripped r.name ∧ r.name ≠ [] ∧ hasColon r.name = false ∧
  endsWithPng r.name = false ∧ OneLine r.name ∧ (0 ≤ r.index ∨ r.index = -1)

/-- Side conditions on a page under which the serializer's output for it is
canonical grammar text. -/
def CanonPage (p : AtlasPage) : Prop :=
  Stripped p.name ∧ endsWithPng p.name = true ∧ OneLine p.name ∧
  Stripped p.format ∧ endsWithPng p.format = false ∧ OneLine p.format ∧
  (p.filter = ([], []) ∨
    (p.filter.1 ≠ [] ∧ p.filter.2 ≠ [] ∧ Stripped p.filter.1 ∧ Stripped p.filter.2 ∧
     (',' ∉ p.filter.1) ∧ (',' ∉ p.filter.2) ∧ endsWithPng p.filter.2 = false ∧
     OneLine p.filter.1 ∧ OneLine p.filter.2)) ∧
  Stripped p.repeatMode ∧ endsWithPng p.repeatMode = false ∧ OneLine p.repeatMode ∧
  (∀ r ∈ p.regions, CanonRegion r)

/-- A canonical in-memory model. -/
def CanonModel (m : List AtlasPage) : Prop := ∀ p ∈ m, CanonPage p

/-- Canonical sidecar text: the serialization of some canonical model.  This
is a proper subset of the well-formed texts of the §4.1 grammar: `save_atlas`
always writes a space after the comma of a pair, omits exactly the
default-valued optional properties, and never writes an `index:` line for a
negative index — so tight pairs such as `size: 16,16`, region blocks that omit
defaulted keys, and `index:` lines with values below `-1` are well-formed but
not canonical.  The round trip holds on this subset (`c2_roundtrip`); on the
full grammar it fails (`c2_counterexample`). -/
def CanonicalText (t : List Line) : Prop := ∃ m, CanonModel m ∧ t = save_atlas m

instance (l : Line) : Decidable (Stripped l) :=
  inferInstanceAs (Decidable (pyStrip l = l))

instance (l : Line) : Decidable (OneLine l) :=
  inferInstanceAs (Decidable (∀ c ∈ l, c ≠ '\n' ∧ c ≠ '\r'))

instance (r : AtlasRegion) : Decidable (CanonRegion r) :=
  inferInstanceAs (Decidable (Stripped r.name ∧ r.name ≠ [] ∧ hasColon r.name = false ∧
    endsWithPng r.name = false ∧ OneLine r.name ∧ (0 ≤ r.index ∨ r.index = -1)))

instance (p : AtlasPage) : Decidable (CanonPage p) :=
  inferInstanceAs (Decidable (Stripped p.name ∧ endsWithPng p.name = true ∧
    OneLine p.name ∧
    Stripped p.format ∧ endsWithPng p.format = false ∧ OneLine p.format ∧
    (p.filter = ([], []) ∨
      (p.filter.1 ≠ [] ∧ p.filter.2 ≠ [] ∧ Stripped p.filter.1 ∧ Stripped p.filter.2 ∧
       (',' ∉ p.filter.1) ∧ (',' ∉ p.filter.2) ∧ endsWithPng p.filter.2 = false ∧
       OneLine p.filter.1 ∧ OneLine p.filter.2)) ∧
    Stripped p.repeatMode ∧ endsWithPng p.repeatMode = false ∧ OneLine p.repeatMode ∧
    (∀ r ∈ p.regions, CanonRegion r)))

instance (m : List AtlasPage) : Decidable (CanonModel m) :=
  inferInstanceAs (Decidable (∀ p ∈ m, CanonPage p))

/-- The pages/regions of a model flattened in parse order (used to state that
`find_region` is a first-match linear scan). -/
def flattenRegions (pages : List AtlasPage) : List (AtlasPage × AtlasRegion) :=
  pages.flatMap (fun p => p.regions.map (fun r => (p, r)))

/-! ## Concrete instances used by counterexamples and witnesses -/

/-- A region at `(x, y)` with size `(w, h)`, unrotated, no trim, no index. -/
def mkRegion (nm : Line) (x y w h : Int) : AtlasRegion :=
  { name := nm, xy := (x, y), size := (w, h), orig := (w, h), offset := (0, 0),
    rotate := false, index := -1 }

/-- Four in-bounds regions whose extracted sizes are 34×2, 13×4, 3×16 and
17×2; packing them exercises `find_node`'s swapped-dimensions fallback. -/
def c1Page : AtlasPage :=
  { name := "p.png".toList, size := some (100, 100), format := "RGBA8888".toList,
    filter := ("Linear".toList, "Linear".toList), repeatMode := "none".toList,
    regions := [mkRegion "x".toList 0 0 34 2, mkRegion "a".toList 0 10 13 4,
                mkRegion "b".toList 0 20 3 16, mkRegion "c".toList 0 40 17 2] }

def c1Images : List (Line × Image) := [("p.png".toList, (100, 100))]

def c1Names : List Line := ["x".toList, "a".toList, "b".toList, "c".toList]

/-- A placement record of an unrotated region whose `orig` equals its size. -/
def mkPlaced (nm : Line) (x y w h : Int) : PlacedRegion :=
  { name := nm, x := x, y := y, width := w, height := h, orig := (w, h),
    offset := (0, 0), rotate := false, index := -1 }

/-- The placements `create_combined_atlas` computes for `c1Names`: region `b`
is matched by the rotation fallback of `find_node` (its height 16 exceeds the
free node's height 4) but pasted unrotated, so it runs over rows that are
later assigned to region `c`. -/
def c1Out : List PlacedRegion :=
  [mkPlaced "x".toList 0 0 34 2, mkPlaced "a".toList 0 4 13 4,
   mkPlaced "b".toList 15 4 3 16, mkPlaced "c".toList 0 10 17 2]

/-- Two extracted items with equal sort keys (area 36, max dimension 9) but
different shapes. -/
def c3ItemA : Image × RegionMeta :=
  ((4, 9), { name := "a".toList, orig := (4, 9), offset := (0, 0), rotate := false,
             index := -1 })

def c3ItemB : Image × RegionMeta :=
  ((9, 4), { name := "b".toList, orig := (9, 4), offset := (0, 0), rotate := false,
             index := -1 })

/-- Two extracted items with distinct sort keys (areas 36 and 40). -/
def c3ItemC : Image × RegionMeta :=
  ((10, 4), { name := "c".toList, orig := (10, 4), offset := (0, 0), rotate := false,
              index := -1 })

/-- A page whose region `bad` has the negative stored width −5: the bounds
check does not fire (`0 + (-5) > 100` is false), and `crop((0, 0, -5, 3))`
raises `ValueError` inside the `try` block. -/
def c4Page : AtlasPage :=
  { name := "p.png".toList, size := some (100, 100), format := [],
    filter := ([], []), repeatMode := [],
    regions := [mkRegion "bad".toList 0 0 (-5) 3] }

/-- A well-formed sidecar text per the §4.1 grammar whose region block carries
`index: -5`: every line is of a grammar production the parser accepts, but the
text is outside the canonical subset because `save_atlas` never emits an
`index:` line for a negative index. -/
def c2Lines : List Line :=
  ["page.png".toList, "size: 16, 16".toList, [], "reg".toList,
   "  rotate: false".toList, "  xy: 1, 2".toList, "  size: 3, 4".toList,
   "  orig: 3, 4".toList, "  offset: 0, 0".toList, "  index: -5".toList]

/-- A sidecar text whose region `r1` sets `size` but never `orig`. -/
def c5Lines : List Line :=
  ["a.png".toList, "size: 100, 100".toList, [], "r1".toList,
   "  rotate: false".toList, "  size: 10, 20".toList]

/-- The region `parse_file` produces for `c5Lines`: `orig` keeps its `(0, 0)`
initializer rather than defaulting to `size`. -/
def c5Region : AtlasRegion :=
  { name := "r1".toList, xy := (0, 0), size := (10, 20), orig := (0, 0),
    offset := (0, 0), rotate := false, index := -1 }

def c5Page : AtlasPage :=
  { name := "a.png".toList, size := some (100, 100), format := [],
    filter := ([], []), repeatMode := [], regions := [c5Region] }

/-- A page with a single region whose `index` is −1. -/
def c6Page : AtlasPage :=
  { name := "p.png".toList, size := some (100, 100), format := [],
    filter := ([], []), repeatMode := [],
    regions := [mkRegion "r".toList 0 0 4 4] }

/-- A canonical two-region model exercising every serialized field. -/
def demoRegion : AtlasRegion :=
  { name := "r1".toList, xy := (3, 4), size := (10, 20), orig := (12, 22),
    offset := (1, -2), rotate := true, index := 5 }

def demoPage : AtlasPage :=
  { name := "a.png".toList, size := some (100, 100), format := "RGBA8888".toList,
    filter := ("Linear".toList, "Nearest".toList), repeatMode := "xy".toList,
    regions := [demoRegion,
                { demoRegion with
                  name := "r2".toList
                  index := -1
                  rotate := false }] }

/-! # Theorems -/

set_option maxRecDepth 40000

theorem finishParse_eq_settle (st : PState) : finishParse st = (settle st).pages := by
  rcases st with ⟨pages, inProps, mode⟩
  cases mode <;> rfl

theorem find?_map_general {α β : Type} (f : α → β) (p : β → Bool) (l : List α) :
    (l.map f).find? p = (l.find? (fun a => p (f a))).map f := by
  induction l with
  | nil => rfl
  | cons a l ih =>
    simp only [List.map_cons, List.find?_cons]
    split <;> simp_all

theorem find_region_eq_find? (pages : List AtlasPage) (n : Line) :
    find_region pages n = (flattenRegions pages).find? (fun pr => pr.2.name == n) := by
  induction pages with
  | nil => rfl
  | cons p ps ih =>
    have hflat : flattenRegions (p :: ps) =
        p.regions.map (fun r => (p, r)) ++ flattenRegions ps := rfl
    rw [hflat, List.find?_append, find?_map_general]
    show (match p.regions.find? (fun r => r.name == n) with
          | some r => some (p, r)
          | none => find_region ps n) = _
    cases h : p.regions.find? (fun r => r.name == n) with
    | none => simp only [h, Option.map_none', Option.none_or]; exact ih
    | some r => simp only [h, Option.map_some']; rfl

theorem extract_notFound_iff (pages : List AtlasPage) (images : List (Line × Image))
    (n : Line) :
    extract_region pages images n = .error .notFound ↔ find_region pages n = none := by
  unfold extract_region
  cases hf : find_region pages n with
  | none => simp
  | some pr =>
    rcases pr with ⟨page, region⟩
    simp only [reduceCtorEq, iff_false]
    cases hi : lookupImage images page.name with
    | none => simp
    | some img =>
      simp only
      split <;> split <;> simp

/-- C8: `extract_region` fails with the region-lookup error (`ValueError`,
"Region not found") exactly when no region of the requested name exists in the
model, and `find_region` is the first match of a linear scan over pages and
regions in parse order.  The embedding of `extract_region` is a pure function
of the model (the source never assigns to the parser's pages or regions), so
the model is unmodified in the failure case. -/
theorem c8_lookup_error_iff (pages : List AtlasPage) (images : List (Line × Image))
    (n : Line) :
    (extract_region pages images n = .error .notFound ↔
      (flattenRegions pages).find? (fun pr => pr.2.name == n) = none) ∧
    find_region pages n = (flattenRegions pages).find? (fun pr => pr.2.name == n) := by
  refine ⟨?_, find_region_eq_find? pages n⟩
  rw [extract_notFound_iff, find_region_eq_find?]

/-- C4 (code_bug): a failure in the crop step does not return the placeholder:
region `bad` has stored width −5, the bounds check does not fire, and
`PIL.Image.crop((0, 0, -5, 3))` raises `ValueError`; the `except` handler then
evaluates `return placeholder, region_data` with `region_data` not yet
assigned (it is only bound after the rotate step), so the call raises
`UnboundLocalError` instead of returning normally. -/
theorem c4_crop_failure_propagates :
    extract_region [c4Page] c1Images "bad".toList = .error .cropFailed := by decide

/-- C9: the combined-atlas serializer writes a fixed five-line header — the
image name, the actual combined image's dimensions as `size`, then
`format: RGBA8888`, `filter: Linear,Linear`, `repeat: none` — regardless of
the source model's page properties. -/
theorem c9_combined_header_fixed (pages : List AtlasPage) (image_name : Line)
    (actual : Int × Int) (positions : List PlacedRegion) :
    (save_combined_atlas_data pages image_name actual positions).take 5 =
      [image_name,
       "size: ".toList ++ pairCharsTight actual.1 actual.2,
       "format: RGBA8888".toList,
       "filter: Linear,Linear".toList,
       "repeat: none".toList] := rfl

theorem extract_absent (pages : List AtlasPage) (images : List (Line × Image))
    (n : Line) (h : find_region pages n = none) :
    extract_region pages images n = .error .notFound := by
  unfold extract_region
  rw [h]

theorem first_pass_all_absent (pages : List AtlasPage) (images : List (Line × Image))
    (names : List Line) (h : ∀ n ∈ names, find_region pages n = none) :
    first_pass pages images names = .ok [] := by
  induction names with
  | nil => rfl
  | cons n ns ih =>
    unfold first_pass
    rw [extract_absent pages images n (h n (by simp))]
    exact ih (fun m hm => h m (by simp [hm]))

/-- C10: when the requested name list is empty, or none of the requested names
exists in the model, `create_combined_atlas` raises
`ValueError("No valid regions to combine")` instead of returning an empty
composite and placement list. -/
theorem c10_no_valid_regions (pages : List AtlasPage) (images : List (Line × Image))
    (names : List Line)
    (h : names = [] ∨ ∀ n ∈ names, find_region pages n = none) :
    create_combined_atlas pages images names = .error .noValidRegions := by
  have hfp : first_pass pages images names = .ok [] := by
    rcases h with rfl | h
    · rfl
    · exact first_pass_all_absent pages images names h
  unfold create_combined_atlas
  rw [hfp]
  rfl

/-- Witness for C10 at a concrete input: requesting the absent name `z` from a
model with one page yields the `noValidRegions` error. -/
theorem c10_no_valid_regions_witness :
    create_combined_atlas [c6Page] c1Images ["z".toList] = .error .noValidRegions :=
  c10_no_valid_regions [c6Page] c1Images ["z".toList] (Or.inr (by decide))

/-- C7: for a region whose crop rectangle `(xy, size)` lies within its page
bitmap's bounds, extraction returns a bitmap of exactly `size` when `rotate`
is false, and of `size` with width and height swapped when `rotate` is true
(together with the unmodified metadata snapshot). -/
theorem c7_extract_dims (pages : List AtlasPage) (images : List (Line × Image))
    (n : Line) (page : AtlasPage) (region : AtlasRegion) (img : Image)
    (hf : find_region pages n = some (page, region))
    (hi : lookupImage images page.name = some img)
    (hx : 0 ≤ region.xy.1) (hy : 0 ≤ region.xy.2)
    (hw : 0 ≤ region.size.1) (hh : 0 ≤ region.size.2)
    (hxw : region.xy.1 + region.size.1 ≤ img.1)
    (hyh : region.xy.2 + region.size.2 ≤ img.2) :
    extract_region pages images n =
      .ok ((if region.rotate then (region.size.2, region.size.1) else region.size),
        { name := region.name, orig := region.orig, offset := region.offset,
          rotate := region.rotate, index := region.index }) := by
  unfold extract_region
  rw [hf]
  simp only [hi]
  have hOob : ¬(region.xy.1 < 0 ∨ region.xy.2 < 0 ∨
      region.xy.1 + region.size.1 > img.1 ∨ region.xy.2 + region.size.2 > img.2) := by
    omega
  rw [if_neg hOob]
  simp only
  have h2 : ¬(region.size.1 < 0 ∨ region.size.2 < 0) := by omega
  rw [if_neg h2]

/-- Witness for C7 at a concrete input: region `b` of `c1Page` (at `(0, 20)`,
size 3×16, unrotated, inside the 100×100 bitmap) extracts to a 3×16 bitmap. -/
theorem c7_extract_dims_witness :
    find_region [c1Page] "b".toList = some (c1Page, mkRegion "b".toList 0 20 3 16) ∧
    lookupImage c1Images c1Page.name = some (100, 100) ∧
    extract_region [c1Page] c1Images "b".toList =
      .ok ((3, 16), { name := "b".toList, orig := (3, 16), offset := (0, 0),
                      rotate := false, index := -1 }) := by
  refine ⟨by decide, by decide, ?_⟩
  have h := c7_extract_dims [c1Page] c1Images "b".toList c1Page
    (mkRegion "b".toList 0 20 3 16) (100, 100) (by decide) (by decide)
    (by decide) (by decide) (by decide) (by decide) (by decide) (by decide)
  simpa using h

/-- C6 (amended): `save_atlas` writes an `index:` line in a region's property
block iff the region's index is ≥ 0, but `save_combined_atlas_data` writes an
`index:` line unconditionally in both of its branches — a region with index −1
is serialized there *with* an `index: -1` line. -/
theorem c6_index_serialization :
    (∀ r : AtlasRegion,
      (∃ s, "  index: ".toList ++ s ∈ regionPropLines r) ↔ 0 ≤ r.index) ∧
    (∀ pos : PlacedRegion, ∃ s, "  index: ".toList ++ s ∈ combinedNewLines pos) ∧
    (∀ r : AtlasRegion, ∃ s, "  index: ".toList ++ s ∈ combinedOrigLines r) := by
  refine ⟨fun r => ⟨fun hmem => ?_, fun hge => ?_⟩,
    fun pos => ⟨intStr pos.index, by simp [combinedNewLines]⟩,
    fun r => ⟨intStr r.index, by simp [combinedOrigLines]⟩⟩
  · by_contra hneg
    push_neg at hneg
    obtain ⟨s, hs⟩ := hmem
    rw [regionPropLines, if_neg (by omega)] at hs
    simp [String.toList, String.data, boolChars] at hs
  · exact ⟨intStr r.index, by rw [regionPropLines, if_pos hge]; simp⟩

/-- C6 (counterexample): the only region of `c6Page` has index −1, yet the
combined-atlas serializer's output for that model contains the line
`  index: -1` — refuting "a region with index -1 is serialized with no index
line" for `save_combined_atlas_data`. -/
theorem c6_counterexample :
    c6Page.regions.map (fun r => r.index) = [-1] ∧
    "  index: -1".toList ∈
      save_combined_atlas_data [c6Page] "out.png".toList (64, 64) [] := by
  exact ⟨by decide, by decide⟩

theorem applyRegionProp_orig (r : AtlasRegion) (s : Line)
    (h : pyStrip (beforeColon s) ≠ "orig".toList) :
    (applyRegionProp r s).orig = r.orig := by
  unfold applyRegionProp
  simp only
  split_ifs with h1 h2 h3 h4 h5 <;>
    first
    | rfl
    | exact absurd (by assumption) h
    | (cases pyIntPair (pyStrip (afterColon s)) <;> rfl)
    | (cases pyInt (pyStrip (afterColon s)) <;> rfl)

/-- Folding region-property lines without an `orig` key preserves `orig`. -/
theorem foldl_applyRegionProp_orig : ∀ (ss : List Line) (r : AtlasRegion),
    (∀ s ∈ ss, pyStrip (beforeColon s) ≠ "orig".toList) →
    (ss.foldl applyRegionProp r).orig = r.orig
  | [], _, _ => rfl
  | s :: ss, r, h => by
    rw [List.foldl_cons,
      foldl_applyRegionProp_orig ss (applyRegionProp r s)
        (fun t ht => h t (List.mem_cons_of_mem _ ht)),
      applyRegionProp_orig r s (h s (List.mem_cons_self _ _))]

/-- C5 (amended): a parsed region whose property block never carries the
`orig` key keeps the `(0, 0)` initializer of `_parse_region_property` as its
`orig` — it does *not* default to `size`. -/
theorem c5_orig_keeps_initializer (name : Line) (ss : List Line)
    (h : ∀ s ∈ ss, pyStrip (beforeColon s) ≠ "orig".toList) :
    (ss.foldl applyRegionProp (initRegion name)).orig = (0, 0) :=
  foldl_applyRegionProp_orig ss (initRegion name) h

/-- Witness for the amended C5 at a concrete input: the property lines of
region `r1` of `c5Lines` never carry the `orig` key, and folding them over the
region initializer leaves `orig = (0, 0)`. -/
theorem c5_orig_keeps_initializer_witness :
    (∀ s ∈ ["  rotate: false".toList, "  size: 10, 20".toList],
      pyStrip (beforeColon s) ≠ "orig".toList) ∧
    (List.foldl applyRegionProp (initRegion "r1".toList)
      ["  rotate: false".toList, "  size: 10, 20".toList]).orig = (0, 0) :=
  ⟨by decide, c5_orig_keeps_initializer "r1".toList _ (by decide)⟩

/-- C5 (counterexample): parsing `c5Lines` — whose region block sets `size`
but never `orig` — yields exactly `c5Page`, whose region has
`orig = (0, 0) ≠ size = (10, 20)`: `orig` does not default to `size`. -/
theorem c5_counterexample :
    parse_file c5Lines = [c5Page] ∧
    c5Region.orig = (0, 0) ∧ c5Region.size = (10, 20) ∧
    c5Region.orig ≠ c5Region.size :=
  ⟨by decide, by decide, by decide, by decide⟩

/-- C3 (counterexample): `[c3ItemA, c3ItemB]` and its permutation
`[c3ItemB, c3ItemA]` are the same multiset of (bitmap, metadata) pairs (sizes
4×9 and 9×4, equal sort keys), yet region `a` is placed at `(0, 0)` in one run
and at `(0, 6)` in the other: the stable sort keeps equal-key items in input
order, so permuting the input permutes the packing order. -/
theorem c3_counterexample :
    [c3ItemA, c3ItemB].Perm [c3ItemB, c3ItemA] ∧
    positionsOf (combine_regions [c3ItemA, c3ItemB]).2 "a".toList = [(0, 0)] ∧
    positionsOf (combine_regions [c3ItemB, c3ItemA]).2 "a".toList = [(0, 6)] :=
  ⟨by decide, by decide, by decide⟩

/-- C1 (counterexample): packing the four in-bounds regions of `c1Page`
(region sizes 34×2, 13×4, 3×16, 17×2) packs `b` through `find_node`'s
swapped-dimensions fallback (a free node 21 wide but only 4 high) while the
caller pastes it unrotated as 3×16 at `(15, 4)`; region `c` is later placed
17×2 at `(0, 10)`, and the padded rectangles `[15, 20) × [4, 22)` and
`[0, 19) × [10, 14)` of `b` and `c` overlap. -/
theorem c1_counterexample :
    create_combined_atlas [c1Page] c1Images c1Names = .ok ((36, 22), c1Out) ∧
    ¬ pairwiseDisjoint c1Out :=
  ⟨by decide, by decide⟩

theorem Rect.disjoint_symm {a b : Rect} (h : a.disjoint b) : b.disjoint a := by
  unfold Rect.disjoint at *
  tauto

theorem Rect.disjoint_mono {a b A B : Rect} (ha : a.inside A) (hb : b.inside B)
    (h : A.disjoint B) : a.disjoint b := by
  unfold Rect.inside Rect.disjoint at *
  omega

theorem Rect.inside_trans {a b c : Rect} (h1 : a.inside b) (h2 : b.inside c) :
    a.inside c := by
  unfold Rect.inside at *
  omega

theorem Node.good_used {x y wd ht : Int} {r d : Node}
    (hg : (Node.used x y wd ht r d).Good) :
    ∃ w h, 0 ≤ w ∧ w ≤ wd ∧ 0 ≤ h ∧ h ≤ ht ∧
      r.x = x + w + padding ∧ r.y = y ∧ r.width = wd - w - padding ∧ r.height = h ∧
      d.x = x ∧ d.y = y + h + padding ∧ d.width = wd ∧ d.height = ht - h - padding ∧
      r.Good ∧ d.Good := hg

theorem Node.itemRects_inside : ∀ (n : Node), n.Good →
    ∀ rect ∈ n.itemRects, rect.inside n.ebox
  | .free _ _ _ _, _, rect, hmem => by simp [Node.itemRects] at hmem
  | .used x y wd ht r d, hg, rect, hmem => by
    obtain ⟨w, h, hw0, hwW, hh0, hhH, hrx, hry, hrw, hrh, hdx, hdy, hdw, hdh, hgr, hgd⟩ :=
      Node.good_used hg
    rcases List.mem_cons.mp hmem with rfl | hmem'
    · unfold Node.ebox Rect.inside
      simp only [Node.x, Node.y, Node.width, Node.height, padding] at *
      omega
    · rcases List.mem_append.mp hmem' with hr | hd
      · refine Rect.inside_trans (Node.itemRects_inside r hgr rect hr) ?_
        unfold Node.ebox Rect.inside
        simp only [Node.x, Node.y, Node.width, Node.height, padding] at *
        omega
      · refine Rect.inside_trans (Node.itemRects_inside d hgd rect hd) ?_
        unfold Node.ebox Rect.inside
        simp only [Node.x, Node.y, Node.width, Node.height, padding] at *
        omega

theorem Node.itemRects_pairwise : ∀ (n : Node), n.Good →
    List.Pairwise Rect.disjoint n.itemRects
  | .free _ _ _ _, _ => by simp [Node.itemRects]
  | .used x y wd ht r d, hg => by
    obtain ⟨w, h, hw0, hwW, hh0, hhH, hrx, hry, hrw, hrh, hdx, hdy, hdw, hdh, hgr, hgd⟩ :=
      Node.good_used hg
    simp only [Node.itemRects]
    refine List.Pairwise.cons ?_ (List.pairwise_append.mpr
      ⟨Node.itemRects_pairwise r hgr, Node.itemRects_pairwise d hgd, ?_⟩)
    · intro rect hmem
      rcases List.mem_append.mp hmem with hr | hd
      · have hin := Node.itemRects_inside r hgr rect hr
        unfold Node.ebox Rect.inside at hin
        unfold Rect.disjoint
        simp only [Node.x, Node.y, Node.width, Node.height, padding] at *
        omega
      · have hin := Node.itemRects_inside d hgd rect hd
        unfold Node.ebox Rect.inside at hin
        unfold Rect.disjoint
        simp only [Node.x, Node.y, Node.width, Node.height, padding] at *
        omega
    · intro a ha b hb
      have hina := Node.itemRects_inside r hgr a ha
      have hinb := Node.itemRects_inside d hgd b hb
      unfold Node.ebox Rect.inside at hina hinb
      unfold Rect.disjoint
      simp only [Node.x, Node.y, Node.width, Node.height, padding] at *
      omega

theorem Node.insertD_fields : ∀ (n : Node) (w h : Int) (res : Node × Int × Int),
    n.insertD w h = some res →
    res.1.x = n.x ∧ res.1.y = n.y ∧ res.1.width = n.width ∧ res.1.height = n.height
  | .free x y wd ht, w, h, res, hres => by
    unfold Node.insertD at hres
    split at hres
    · cases hres
      exact ⟨rfl, rfl, rfl, rfl⟩
    · cases hres
  | .used x y wd ht r d, w, h, res, hres => by
    unfold Node.insertD at hres
    split at hres
    · cases hres
      exact ⟨rfl, rfl, rfl, rfl⟩
    · split at hres
      · cases hres
        exact ⟨rfl, rfl, rfl, rfl⟩
      · cases hres

theorem Node.insertD_good : ∀ (n : Node) (w h : Int) (res : Node × Int × Int),
    n.insertD w h = some res → 0 ≤ w → 0 ≤ h → n.Good →
    res.1.Good ∧
    res.1.itemRects.Perm
      (⟨res.2.1, res.2.2, res.2.1 + w + padding, res.2.2 + h + padding⟩ :: n.itemRects)
  | .free x y wd ht, w, h, res, hres, hw0, hh0, _ => by
    unfold Node.insertD at hres
    split at hres
    · cases hres
      next hfit =>
      refine ⟨⟨w, h, hw0, hfit.1, hh0, hfit.2, rfl, rfl, rfl, rfl, rfl, rfl, rfl, rfl,
        trivial, trivial⟩, ?_⟩
      simp [Node.itemRects, Node.x, Node.y]
    · cases hres
  | .used x y wd ht r d, w, h, res, hres, hw0, hh0, hg => by
    obtain ⟨w₀, h₀, hw₀0, hw₀W, hh₀0, hh₀H, hrx, hry, hrw, hrh, hdx, hdy, hdw, hdh,
      hgr, hgd⟩ := Node.good_used hg
    unfold Node.insertD at hres
    split at hres
    · next r' pos hr' =>
      cases hres
      obtain ⟨hgood', hperm'⟩ := Node.insertD_good r w h (r', pos) hr' hw0 hh0 hgr
      obtain ⟨hfx, hfy, hfw, hfh⟩ := Node.insertD_fields r w h (r', pos) hr'
      constructor
      · exact ⟨w₀, h₀, hw₀0, hw₀W, hh₀0, hh₀H, by rw [hfx, hrx], by rw [hfy, hry],
          by rw [hfw, hrw], by rw [hfh, hrh], hdx, hdy, hdw, hdh, hgood', hgd⟩
      · show List.Perm ((⟨x, y, r'.x, d.y⟩ : Rect) :: (r'.itemRects ++ d.itemRects)) _
        rw [hfx]
        exact ((hperm'.append_right d.itemRects).cons _).trans (List.Perm.swap _ _ _)
    · split at hres
      · next d' pos hd' =>
        cases hres
        obtain ⟨hgood', hperm'⟩ := Node.insertD_good d w h (d', pos) hd' hw0 hh0 hgd
        obtain ⟨hfx, hfy, hfw, hfh⟩ := Node.insertD_fields d w h (d', pos) hd'
        constructor
        · exact ⟨w₀, h₀, hw₀0, hw₀W, hh₀0, hh₀H, hrx, hry, hrw, hrh, by rw [hfx, hdx],
            by rw [hfy, hdy], by rw [hfw, hdw], by rw [hfh, hdh], hgr, hgood'⟩
        · show List.Perm ((⟨x, y, r.x, d'.y⟩ : Rect) :: (r.itemRects ++ d'.itemRects)) _
          rw [hfy]
          exact ((hperm'.append_left r.itemRects).cons _).trans
            ((List.perm_middle.cons _).trans (List.Perm.swap _ _ _))
      · cases hres

theorem packStepD_none {n : Node} {ps : List PlacedRegion} {it : Image × RegionMeta}
    (hins : n.insertD it.1.1 it.1.2 = none) : packStepD (n, ps) it = (n, ps) := by
  unfold packStepD
  simp only
  rw [hins]

theorem packStepD_some {n t : Node} {pos : Int × Int} {ps : List PlacedRegion}
    {it : Image × RegionMeta}
    (hins : n.insertD it.1.1 it.1.2 = some (t, pos)) :
    packStepD (n, ps) it =
      (t, ps ++ [{ name := it.2.name, x := pos.1, y := pos.2, width := it.1.1,
                   height := it.1.2, orig := it.2.orig, offset := it.2.offset,
                   rotate := false, index := it.2.index }]) := by
  unfold packStepD
  simp only
  rw [hins]

theorem foldl_packStepD_spec :
    ∀ (items : List (Image × RegionMeta)) (n : Node) (ps : List PlacedRegion),
    n.Good → (∀ it ∈ items, 0 ≤ it.1.1 ∧ 0 ≤ it.1.2) →
    ∃ n' qs, items.foldl packStepD (n, ps) = (n', ps ++ qs) ∧ n'.Good ∧
      n'.itemRects.Perm (qs.map padRect ++ n.itemRects)
  | [], n, ps, hg, _ => ⟨n, [], by simp, hg, by simp⟩
  | it :: items, n, ps, hg, hdims => by
    have hit := hdims it (List.mem_cons_self _ _)
    have hrest : ∀ i ∈ items, 0 ≤ i.1.1 ∧ 0 ≤ i.1.2 :=
      fun i hi => hdims i (List.mem_cons_of_mem _ hi)
    rw [List.foldl_cons]
    cases hins : n.insertD it.1.1 it.1.2 with
    | none =>
      rw [packStepD_none hins]
      exact foldl_packStepD_spec items n ps hg hrest
    | some res =>
      obtain ⟨t, pos⟩ := res
      rw [packStepD_some hins]
      obtain ⟨hgood₁, hperm₁⟩ :=
        Node.insertD_good n it.1.1 it.1.2 (t, pos) hins hit.1 hit.2 hg
      obtain ⟨n', qs, heq, hgood, hperm⟩ :=
        foldl_packStepD_spec items t
          (ps ++ [{ name := it.2.name, x := pos.1, y := pos.2, width := it.1.1,
                    height := it.1.2, orig := it.2.orig, offset := it.2.offset,
                    rotate := false, index := it.2.index }]) hgood₁ hrest
      refine ⟨n',
        (⟨it.2.name, pos.1, pos.2, it.1.1, it.1.2, it.2.orig, it.2.offset, false,
          it.2.index⟩ : PlacedRegion) :: qs, ?_, hgood, ?_⟩
      · rw [heq, List.append_assoc]
        rfl
      · exact hperm.trans ((hperm₁.append_left (qs.map padRect)).trans List.perm_middle)

theorem pairwiseDisjoint_of_perm_pairwise {ps : List PlacedRegion} {rs : List Rect}
    (hperm : rs.Perm (ps.map padRect)) (hpw : List.Pairwise Rect.disjoint rs) :
    pairwiseDisjoint ps := by
  unfold pairwiseDisjoint
  have h₁ : List.Pairwise Rect.disjoint (ps.map padRect) :=
    ((List.Perm.pairwise_iff (fun h => Rect.disjoint_symm h) hperm).mp hpw)
  exact (List.pairwise_map.mp h₁)

theorem pairwiseDisjoint_packAllD (items : List (Image × RegionMeta)) (wd ht : Int)
    (hdims : ∀ it ∈ items, 0 ≤ it.1.1 ∧ 0 ≤ it.1.2) :
    pairwiseDisjoint (packAllD (.free 0 0 wd ht) items).2 := by
  obtain ⟨n', qs, heq, hgood, hperm⟩ :=
    foldl_packStepD_spec items (.free 0 0 wd ht) [] trivial hdims
  unfold packAllD
  rw [heq]
  simp only [List.nil_append]
  refine pairwiseDisjoint_of_perm_pairwise ?_ (Node.itemRects_pairwise n' hgood)
  simpa [Node.itemRects] using hperm

theorem extract_region_nonneg (pages : List AtlasPage) (images : List (Line × Image))
    (n : Line) (img : Image) (meta : RegionMeta)
    (h : extract_region pages images n = .ok (img, meta)) : 0 ≤ img.1 ∧ 0 ≤ img.2 := by
  unfold extract_region at h
  cases hf : find_region pages n with
  | none => rw [hf] at h; cases h
  | some pr =>
    rcases pr with ⟨page, region⟩
    rw [hf] at h
    cases hi : lookupImage images page.name with
    | none =>
      simp only [hi] at h
      exact Except.noConfusion h
    | some im =>
      simp only [hi] at h
      split at h
      · split at h
        · exact Except.noConfusion h
        · next hguard =>
          injection h with h'
          rw [Prod.mk.injEq] at h'
          obtain ⟨himg, -⟩ := h'
          rw [← himg]
          rw [not_or, not_lt, not_lt] at hguard
          split <;> constructor <;> omega
      · split at h
        · exact Except.noConfusion h
        · next hguard =>
          injection h with h'
          rw [Prod.mk.injEq] at h'
          obtain ⟨himg, -⟩ := h'
          rw [← himg]
          rw [not_or, not_lt, not_lt] at hguard
          split <;> constructor <;> omega

theorem first_pass_nonneg :
    ∀ (names : List Line) (pages : List AtlasPage) (images : List (Line × Image))
      (regions : List (Image × RegionMeta)),
    first_pass pages images names = .ok regions →
    ∀ it ∈ regions, 0 ≤ it.1.1 ∧ 0 ≤ it.1.2
  | [], _, _, regions, h => by
    cases h
    intro it hit
    cases hit
  | n :: names, pages, images, regions, h => by
    unfold first_pass at h
    split at h
    · next item hext =>
      cases hrest : first_pass pages images names with
      | error e => rw [hrest] at h; cases h
      | ok l =>
        rw [hrest] at h
        cases h
        intro it hit
        rcases List.mem_cons.mp hit with rfl | hmem
        · exact extract_region_nonneg pages images n it.1 it.2 (by simpa using hext)
        · exact first_pass_nonneg names pages images l hrest it hmem
    · exact first_pass_nonneg names pages images regions h
    · cases h

theorem insertSorted_perm {α : Type} (le : α → α → Bool) (x : α) :
    ∀ (l : List α), (insertSorted le x l).Perm (x :: l)
  | [] => List.Perm.refl _
  | y :: ys => by
    unfold insertSorted
    split
    · exact ((insertSorted_perm le x ys).cons y).trans (List.Perm.swap _ _ _)
    · exact List.Perm.refl _

theorem pySort_foldl_perm {α : Type} (le : α → α → Bool) :
    ∀ (l acc : List α),
      (l.foldl (fun acc x => insertSorted le x acc) acc).Perm (acc ++ l)
  | [], acc => by simp
  | x :: l, acc => by
    rw [List.foldl_cons]
    refine (pySort_foldl_perm le l (insertSorted le x acc)).trans ?_
    refine ((insertSorted_perm le x acc).append_right l).trans ?_
    exact List.perm_middle.symm

theorem pySort_perm {α : Type} (le : α → α → Bool) (l : List α) :
    (pySort le l).Perm l := by
  simpa using pySort_foldl_perm le l []

/-- C1 (amended): on every batch where the packing loop's placements all come
from direct fits — the runs on which `find_node`'s swapped-dimensions fallback
(which pastes an unrotated bitmap into a node it does not fit) never decides a
placement, expressed as the real packing loop agreeing with its direct-fit
restriction — no two placement records of `create_combined_atlas` overlap,
padding-inclusive. -/
theorem c1_no_overlap_of_direct_fits (pages : List AtlasPage)
    (images : List (Line × Image)) (names : List Line)
    (regions : List (Image × RegionMeta)) (out : Image × List PlacedRegion)
    (hfp : first_pass pages images names = .ok regions)
    (hdirect :
      packAll (.free 0 0 (atlasDims regions).1 (atlasDims regions).2)
          (pySort itemLe regions) =
        packAllD (.free 0 0 (atlasDims regions).1 (atlasDims regions).2)
          (pySort itemLe regions))
    (hok : create_combined_atlas pages images names = .ok out) :
    pairwiseDisjoint out.2 := by
  unfold create_combined_atlas at hok
  rw [hfp] at hok
  simp only at hok
  split at hok
  · exact Except.noConfusion hok
  · injection hok with hout
    subst hout
    show pairwiseDisjoint (combine_regions regions).2
    unfold combine_regions
    simp only
    rw [hdirect]
    refine pairwiseDisjoint_packAllD _ _ _ ?_
    intro it hit
    exact first_pass_nonneg names pages images regions hfp it
      ((pySort_perm itemLe regions).mem_iff.mp hit)

/-- Witness for the amended C1 at a concrete input: extracting and packing the
single region `a` of `c1Page` uses only direct fits, and the resulting
placements are pairwise disjoint. -/
theorem c1_no_overlap_of_direct_fits_witness :
    (∃ regions, first_pass [c1Page] c1Images ["a".toList] = .ok regions ∧
      packAll (.free 0 0 (atlasDims regions).1 (atlasDims regions).2)
          (pySort itemLe regions) =
        packAllD (.free 0 0 (atlasDims regions).1 (atlasDims regions).2)
          (pySort itemLe regions)) ∧
    (∃ out, create_combined_atlas [c1Page] c1Images ["a".toList] = .ok out ∧
      pairwiseDisjoint out.2) := by
  refine ⟨⟨[((13, 4), (⟨"a".toList, (13, 4), (0, 0), false, -1⟩ : RegionMeta))],
    by decide, by decide⟩, ?_⟩
  refine ⟨((15, 6),
    [(⟨"a".toList, 0, 0, 13, 4, (13, 4), (0, 0), false, -1⟩ : PlacedRegion)]),
    by decide, ?_⟩
  exact c1_no_overlap_of_direct_fits [c1Page] c1Images ["a".toList]
    [((13, 4), (⟨"a".toList, (13, 4), (0, 0), false, -1⟩ : RegionMeta))] _
    (by decide) (by decide) (by decide)

theorem keyLeB_iff (a b : Int × Int) :
    keyLeB a b = true ↔ (a.1 < b.1 ∨ (a.1 = b.1 ∧ a.2 ≤ b.2)) := by
  unfold keyLeB
  exact decide_eq_true_iff

theorem itemLe_total (a b : Image × RegionMeta) :
    itemLe a b = true ∨ itemLe b a = true := by
  unfold itemLe
  rw [keyLeB_iff, keyLeB_iff]
  omega

theorem itemLe_trans (a b c : Image × RegionMeta) (h1 : itemLe a b = true)
    (h2 : itemLe b c = true) : itemLe a c = true := by
  unfold itemLe at *
  rw [keyLeB_iff] at *
  omega

theorem itemLe_antisymm {a b : Image × RegionMeta} (h1 : itemLe a b = true)
    (h2 : itemLe b a = true) : sortKey a = sortKey b := by
  unfold itemLe at h1 h2
  rw [keyLeB_iff] at h1 h2
  have h : (sortKey a).1 = (sortKey b).1 ∧ (sortKey a).2 = (sortKey b).2 := by omega
  calc sortKey a = ((sortKey a).1, (sortKey a).2) := rfl
    _ = ((sortKey b).1, (sortKey b).2) := by rw [h.1, h.2]
    _ = sortKey b := rfl

theorem insertSorted_sorted {α : Type} (le : α → α → Bool)
    (htot : ∀ a b, le a b = true ∨ le b a = true)
    (htrans : ∀ a b c, le a b = true → le b c = true → le a c = true) (x : α) :
    ∀ (l : List α), List.Pairwise (fun a b => le a b = true) l →
      List.Pairwise (fun a b => le a b = true) (insertSorted le x l)
  | [], _ => by simp [insertSorted]
  | y :: ys, hl => by
    obtain ⟨hy, hys⟩ := List.pairwise_cons.mp hl
    unfold insertSorted
    split
    · next hyx =>
      refine List.pairwise_cons.mpr ⟨?_, insertSorted_sorted le htot htrans x ys hys⟩
      intro z hz
      rcases List.mem_cons.mp ((insertSorted_perm le x ys).mem_iff.mp hz) with rfl | hz'
      · exact hyx
      · exact hy z hz'
    · next hyx =>
      have hxy : le x y = true := (htot x y).resolve_right hyx
      refine List.pairwise_cons.mpr ⟨?_, hl⟩
      intro z hz
      rcases List.mem_cons.mp hz with rfl | hz'
      · exact hxy
      · exact htrans x y z hxy (hy z hz')

theorem pySort_foldl_sorted {α : Type} (le : α → α → Bool)
    (htot : ∀ a b, le a b = true ∨ le b a = true)
    (htrans : ∀ a b c, le a b = true → le b c = true → le a c = true) :
    ∀ (l acc : List α), List.Pairwise (fun a b => le a b = true) acc →
      List.Pairwise (fun a b => le a b = true)
        (l.foldl (fun acc x => insertSorted le x acc) acc)
  | [], _, hacc => hacc
  | x :: l, acc, hacc => by
    rw [List.foldl_cons]
    exact pySort_foldl_sorted le htot htrans l _
      (insertSorted_sorted le htot htrans x acc hacc)

theorem pySort_sorted {α : Type} (le : α → α → Bool)
    (htot : ∀ a b, le a b = true ∨ le b a = true)
    (htrans : ∀ a b c, le a b = true → le b c = true → le a c = true) (l : List α) :
    List.Pairwise (fun a b => le a b = true) (pySort le l) :=
  pySort_foldl_sorted le htot htrans l [] (by simp)

theorem sorted_perm_eq_of_nodup_keys :
    ∀ (l₁ l₂ : List (Image × RegionMeta)), l₁.Perm l₂ →
    List.Pairwise (fun a b => itemLe a b = true) l₁ →
    List.Pairwise (fun a b => itemLe a b = true) l₂ →
    (l₁.map sortKey).Nodup → l₁ = l₂
  | [], l₂, hp, _, _, _ => hp.symm.eq_nil.symm
  | x :: t₁, l₂, hp, hs₁, hs₂, hnd => by
    cases l₂ with
    | nil => exact absurd hp.eq_nil (by simp)
    | cons y t₂ =>
      have hxy : x = y := by
        by_contra hne
        have hx2 : x ∈ y :: t₂ := hp.mem_iff.mp (List.mem_cons_self _ _)
        have hy1 : y ∈ x :: t₁ := hp.symm.mem_iff.mp (List.mem_cons_self _ _)
        rcases List.mem_cons.mp hx2 with rfl | hx2'
        · exact hne rfl
        rcases List.mem_cons.mp hy1 with heq | hy1'
        · exact hne heq.symm
        have h1 : itemLe y x = true := (List.pairwise_cons.mp hs₂).1 x hx2'
        have h2 : itemLe x y = true := (List.pairwise_cons.mp hs₁).1 y hy1'
        have hkey : sortKey x = sortKey y := itemLe_antisymm h2 h1
        have hmem : sortKey y ∈ t₁.map sortKey := List.mem_map_of_mem _ hy1'
        exact (List.nodup_cons.mp hnd).1 (hkey ▸ hmem)
      subst hxy
      rw [sorted_perm_eq_of_nodup_keys t₁ t₂ hp.cons_inv (List.pairwise_cons.mp hs₁).2
        (List.pairwise_cons.mp hs₂).2 (List.nodup_cons.mp hnd).2]

theorem perm_foldl_comm {α β : Type} {f : β → α → β}
    (hcomm : ∀ b a₁ a₂, f (f b a₁) a₂ = f (f b a₂) a₁) :
    ∀ {l₁ l₂ : List α}, l₁.Perm l₂ → ∀ b, l₁.foldl f b = l₂.foldl f b := by
  intro l₁ l₂ hp
  induction hp with
  | nil => intro b; rfl
  | cons x _ ih => intro b; simp only [List.foldl_cons]; exact ih _
  | swap x y l => intro b; simp only [List.foldl_cons]; rw [hcomm]
  | trans h₁ h₂ ih₁ ih₂ => intro b; rw [ih₁ b, ih₂ b]

theorem total_area_perm {l₁ l₂ : List (Image × RegionMeta)} (hp : l₁.Perm l₂) :
    total_area l₁ = total_area l₂ :=
  perm_foldl_comm (fun b a₁ a₂ => by ring) hp 0

theorem max_width_perm {l₁ l₂ : List (Image × RegionMeta)} (hp : l₁.Perm l₂) :
    max_width l₁ = max_width l₂ :=
  perm_foldl_comm (fun b a₁ a₂ => Max.right_comm b a₁.1.1 a₂.1.1) hp 0

theorem max_height_perm {l₁ l₂ : List (Image × RegionMeta)} (hp : l₁.Perm l₂) :
    max_height l₁ = max_height l₂ :=
  perm_foldl_comm (fun b a₁ a₂ => Max.right_comm b a₁.1.2 a₂.1.2) hp 0

/-- C3 (amended): the packer is deterministic over the input multiset provided
no two items share a sort key: for any two permutations of the same
(bitmap, metadata) list whose `(area, max-dimension)` sort keys are pairwise
distinct, the whole pipeline from the internal sort through canvas sizing,
packing and trimming produces identical output — in particular identical
placement coordinates for every region name.  (Without the distinct-key
hypothesis the stable sort preserves the incoming order of equal-key items and
determinism fails; see the counterexample.) -/
theorem c3_packing_deterministic (l₁ l₂ : List (Image × RegionMeta))
    (hperm : l₁.Perm l₂) (hkeys : (l₁.map sortKey).Nodup) :
    combine_regions l₁ = combine_regions l₂ := by
  have hsortperm : (pySort itemLe l₁).Perm (pySort itemLe l₂) :=
    (pySort_perm itemLe l₁).trans (hperm.trans (pySort_perm itemLe l₂).symm)
  have hnd₁ : ((pySort itemLe l₁).map sortKey).Nodup :=
    (((pySort_perm itemLe l₁).map sortKey).nodup_iff).mpr hkeys
  have hsorteq : pySort itemLe l₁ = pySort itemLe l₂ :=
    sorted_perm_eq_of_nodup_keys _ _ hsortperm
      (pySort_sorted itemLe itemLe_total itemLe_trans l₁)
      (pySort_sorted itemLe itemLe_total itemLe_trans l₂) hnd₁
  have hdims : atlasDims l₁ = atlasDims l₂ := by
    unfold atlasDims
    rw [total_area_perm hperm, max_width_perm hperm, max_height_perm hperm]
  unfold combine_regions
  simp only
  rw [hsorteq, hdims]

/-- Witness for the amended C3 at a concrete input: two items with distinct
sort keys (areas 36 and 40), permuted, produce identical packing output. -/
theorem c3_packing_deterministic_witness :
    [c3ItemA, c3ItemC].Perm [c3ItemC, c3ItemA] ∧
    ([c3ItemA, c3ItemC].map sortKey).Nodup ∧
    combine_regions [c3ItemA, c3ItemC] = combine_regions [c3ItemC, c3ItemA] :=
  ⟨by decide, by decide, c3_packing_deterministic _ _ (by decide) (by decide)⟩

/-! ## Character and decimal-string lemmas (towards the C2 round-trip) -/

theorem digit_ne {c d : Char} (h : isDigitChar c = true) (hd : isDigitChar d = false) :
    c ≠ d := fun heq => by rw [heq] at h; rw [h] at hd; cases hd

theorem digit_not_space {c : Char} (h : isDigitChar c = true) : isPySpace c = false := by
  have h1 : c ≠ ' ' := digit_ne h (by decide)
  have h2 : c ≠ '\t' := digit_ne h (by decide)
  have h3 : c ≠ '\n' := digit_ne h (by decide)
  have h4 : c ≠ '\r' := digit_ne h (by decide)
  simp [isPySpace, h1, h2, h3, h4]

theorem digitChar_isDigit : ∀ d : Nat, d < 10 → isDigitChar (Nat.digitChar d) = true := by
  decide

theorem digitVal_digitChar : ∀ d : Nat, d < 10 → digitVal (Nat.digitChar d) = d := by
  decide

theorem natChars_digits : ∀ (fuel n : Nat), n ≤ fuel →
    natChars fuel n = ((Nat.digits 10 n).map Nat.digitChar).reverse
  | fuel, 0, _ => by cases fuel <;> simp [natChars]
  | 0, n + 1, h => by omega
  | fuel + 1, n + 1, h => by
    rw [natChars, if_neg (by omega)]
    rw [natChars_digits fuel ((n + 1) / 10)
      (by
        have := Nat.div_lt_self (Nat.succ_pos n) (by norm_num : 1 < 10)
        omega)]
    rw [Nat.digits_def' (by norm_num : 1 < 10) (Nat.succ_pos n)]
    simp

theorem natStr_all_digit (n : Nat) : ∀ c ∈ natStr n, isDigitChar c = true := by
  unfold natStr
  split
  · intro c hc
    rw [List.mem_singleton] at hc
    subst hc
    decide
  · rw [natChars_digits n n le_rfl]
    intro c hc
    rw [List.mem_reverse, List.mem_map] at hc
    obtain ⟨d, hd, rfl⟩ := hc
    exact digitChar_isDigit d (Nat.digits_lt_base (by norm_num) hd)

theorem natStr_ne_nil (n : Nat) : natStr n ≠ [] := by
  unfold natStr
  split
  · simp
  · next hn =>
    rw [natChars_digits n n le_rfl]
    simp only [ne_eq, List.reverse_eq_nil_iff, List.map_eq_nil_iff]
    exact Nat.digits_ne_nil_iff_ne_zero.mpr hn

theorem intStr_all_good (n : Int) : ∀ c ∈ intStr n, isDigitChar c = true ∨ c = '-' := by
  unfold intStr
  split
  · intro c hc
    rcases List.mem_cons.mp hc with rfl | hc'
    · exact Or.inr rfl
    · exact Or.inl (natStr_all_digit _ c hc')
  · exact fun c hc => Or.inl (natStr_all_digit _ c hc)

theorem good_not_space {c : Char} (h : isDigitChar c = true ∨ c = '-') :
    isPySpace c = false := by
  rcases h with h | rfl
  · exact digit_not_space h
  · decide

theorem good_ne_comma {c : Char} (h : isDigitChar c = true ∨ c = '-') : c ≠ ',' := by
  rcases h with h | rfl
  · exact digit_ne h (by decide)
  · decide

theorem good_ne_colon {c : Char} (h : isDigitChar c = true ∨ c = '-') : c ≠ ':' := by
  rcases h with h | rfl
  · exact digit_ne h (by decide)
  · decide

theorem good_ne_space {c : Char} (h : isDigitChar c = true ∨ c = '-') : c ≠ ' ' := by
  rcases h with h | rfl
  · exact digit_ne h (by decide)
  · decide

theorem foldr_digitChar_eq : ∀ (l : List Nat), (∀ d ∈ l, d < 10) →
    l.foldr (fun d acc => acc * 10 + digitVal (Nat.digitChar d)) 0 =
      l.foldr (fun d acc => acc * 10 + d) 0
  | [], _ => rfl
  | d :: l, h => by
    rw [List.foldr_cons, List.foldr_cons,
      foldr_digitChar_eq l (fun e he => h e (List.mem_cons_of_mem _ he)),
      digitVal_digitChar d (h d (List.mem_cons_self _ _))]

theorem foldr_digits_eq_ofDigits : ∀ (l : List Nat),
    l.foldr (fun d acc => acc * 10 + d) 0 = Nat.ofDigits 10 l
  | [] => rfl
  | d :: l => by
    rw [List.foldr_cons, foldr_digits_eq_ofDigits l, Nat.ofDigits_cons]
    omega

theorem parseNatDigits_natStr (n : Nat) : parseNatDigits (natStr n) = some n := by
  unfold parseNatDigits
  rw [if_pos ⟨natStr_ne_nil n, by
    rw [List.all_eq_true]
    exact fun c hc => natStr_all_digit n c hc⟩]
  congr 1
  unfold natStr
  split
  · next hn =>
    subst hn
    rfl
  · next hn =>
    rw [natChars_digits n n le_rfl, List.foldl_reverse, List.foldr_map]
    have hlt : ∀ d ∈ Nat.digits 10 n, d < 10 :=
      fun d hd => Nat.digits_lt_base (by norm_num) hd
    calc (Nat.digits 10 n).foldr (fun d acc => acc * 10 + digitVal (Nat.digitChar d)) 0
        = (Nat.digits 10 n).foldr (fun d acc => acc * 10 + d) 0 :=
          foldr_digitChar_eq _ hlt
      _ = Nat.ofDigits 10 (Nat.digits 10 n) := foldr_digits_eq_ofDigits _
      _ = n := Nat.ofDigits_digits 10 n

theorem pyStrip_of_all_nonspace {l : Line} (h : ∀ c ∈ l, isPySpace c = false) :
    pyStrip l = l := by
  unfold pyStrip trimLeft
  have h1 : l.dropWhile isPySpace = l := by
    cases l with
    | nil => rfl
    | cons c t =>
      rw [List.dropWhile_cons, if_neg]
      rw [h c (List.mem_cons_self _ _)]
      simp
  rw [h1]
  have h2 : l.reverse.dropWhile isPySpace = l.reverse := by
    cases hr : l.reverse with
    | nil => rfl
    | cons c t =>
      rw [List.dropWhile_cons, if_neg]
      have hc : c ∈ l := by
        rw [← List.mem_reverse, hr]
        exact List.mem_cons_self _ _
      rw [h c hc]
      simp
  rw [h2, List.reverse_reverse]

theorem pyInt_intStr (n : Int) : pyInt (intStr n) = some n := by
  have hstrip : pyStrip (intStr n) = intStr n :=
    pyStrip_of_all_nonspace (fun c hc => good_not_space (intStr_all_good n c hc))
  unfold pyInt
  rw [hstrip]
  unfold intStr
  split
  · next hneg =>
    show pyIntCore ('-' :: natStr n.natAbs) = some n
    rw [show pyIntCore ('-' :: natStr n.natAbs) =
      (match parseNatDigits (natStr n.natAbs) with
       | some m => some (-(m : Int))
       | none => none) from rfl]
    rw [parseNatDigits_natStr]
    show some (-(n.natAbs : Int)) = some n
    congr 1
    rw [Int.ofNat_natAbs_of_nonpos (by omega), neg_neg]
  · next hpos =>
    obtain ⟨c, t, hct⟩ := List.exists_cons_of_ne_nil (natStr_ne_nil n.natAbs)
    have hc : c ≠ '-' :=
      digit_ne (natStr_all_digit _ c (hct ▸ List.mem_cons_self _ _)) (by decide)
    rw [hct]
    unfold pyIntCore
    split
    · next heq =>
      rw [List.cons.injEq] at heq
      exact absurd heq.1 hc
    · rw [← hct, parseNatDigits_natStr]
      show some ((n.natAbs : Int)) = some n
      congr 1
      exact Int.natAbs_of_nonneg (by omega)

theorem intStr_ne_nil (n : Int) : intStr n ≠ [] := by
  unfold intStr
  split
  · simp
  · exact natStr_ne_nil _

theorem natStr_rev_head (m : Nat) :
    ∃ c t, (natStr m).reverse = c :: t ∧ isDigitChar c = true := by
  obtain ⟨c, t, hct⟩ := List.exists_cons_of_ne_nil
    (by simpa using (natStr_ne_nil m) : (natStr m).reverse ≠ [])
  refine ⟨c, t, hct, natStr_all_digit m c ?_⟩
  rw [← List.mem_reverse, hct]
  exact List.mem_cons_self _ _

theorem intStr_rev_head (n : Int) :
    ∃ c t, (intStr n).reverse = c :: t ∧ isDigitChar c = true := by
  unfold intStr
  split
  · obtain ⟨c, t, hct, hd⟩ := natStr_rev_head n.natAbs
    exact ⟨c, t ++ ['-'], by rw [List.reverse_cons, hct]; rfl, hd⟩
  · exact natStr_rev_head n.natAbs

theorem intStr_head (n : Int) :
    ∃ c t, intStr n = c :: t ∧ isPySpace c = false := by
  obtain ⟨c, t, hct⟩ := List.exists_cons_of_ne_nil (intStr_ne_nil n)
  refine ⟨c, t, hct, good_not_space (intStr_all_good n c ?_)⟩
  rw [hct]
  exact List.mem_cons_self _ _

theorem removeSpaces_of_no_space {l : Line} (h : ∀ c ∈ l, c ≠ ' ') :
    removeSpaces l = l := by
  unfold removeSpaces
  rw [List.filter_eq_self]
  intro c hc
  simpa using h c hc

theorem removeSpaces_intStr (n : Int) : removeSpaces (intStr n) = intStr n :=
  removeSpaces_of_no_space (fun c hc => good_ne_space (intStr_all_good n c hc))

theorem splitComma_no_comma {l : Line} (h : ∀ c ∈ l, c ≠ ',') : splitComma l = [l] := by
  induction l with
  | nil => rfl
  | cons c t ih =>
    unfold splitComma
    rw [if_neg (h c (List.mem_cons_self _ _)),
      ih (fun e he => h e (List.mem_cons_of_mem _ he))]

theorem splitComma_append {u : Line} (v : Line) (h : ∀ c ∈ u, c ≠ ',') :
    splitComma (u ++ ',' :: v) = u :: splitComma v := by
  induction u with
  | nil => simp [splitComma]
  | cons c t ih =>
    have step : splitComma (c :: (t ++ ',' :: v)) =
        (match splitComma (t ++ ',' :: v) with
         | r :: rs => (c :: r) :: rs
         | [] => [[c]]) := by
      show (if c = ',' then [] :: splitComma (t ++ ',' :: v)
            else match splitComma (t ++ ',' :: v) with
                 | r :: rs => (c :: r) :: rs
                 | [] => [[c]]) = _
      rw [if_neg (h c (List.mem_cons_self _ _))]
    show splitComma (c :: (t ++ ',' :: v)) = (c :: t) :: splitComma v
    rw [step, ih (fun e he => h e (List.mem_cons_of_mem _ he))]

theorem pyIntPair_pairChars (a b : Int) : pyIntPair (pairChars a b) = some (a, b) := by
  unfold pyIntPair pairChars
  have h1 : removeSpaces (intStr a ++ ',' :: ' ' :: intStr b) =
      intStr a ++ ',' :: intStr b := by
    unfold removeSpaces
    rw [List.filter_append]
    show removeSpaces (intStr a) ++ List.filter _ (',' :: ' ' :: intStr b) = _
    rw [removeSpaces_intStr]
    rw [List.filter_cons_of_pos (by decide), List.filter_cons_of_neg (by simp)]
    show intStr a ++ ',' :: removeSpaces (intStr b) = _
    rw [removeSpaces_intStr]
  rw [h1,
    splitComma_append _ (fun c hc => good_ne_comma (intStr_all_good a c hc)),
    splitComma_no_comma (fun c hc => good_ne_comma (intStr_all_good b c hc))]
  show (match pyInt (intStr a), pyInt (intStr b) with
        | some x, some y => some (x, y)
        | _, _ => none) = some (a, b)
  rw [pyInt_intStr, pyInt_intStr]

theorem trimLeft_cons_space {c : Char} {l : Line} (h : isPySpace c = true) :
    trimLeft (c :: l) = trimLeft l := by
  unfold trimLeft
  rw [List.dropWhile_cons, if_pos (by rw [h])]

theorem pyStrip_cons_space {c : Char} {l : Line} (h : isPySpace c = true) :
    pyStrip (c :: l) = pyStrip l := by
  unfold pyStrip
  rw [trimLeft_cons_space h]

/-- A line whose first character is not whitespace and whose last character is
not whitespace is its own strip. -/
theorem pyStrip_concat {k v : Line} {c c' : Char} {t t' : Line}
    (hk : k = c :: t) (hc : isPySpace c = false)
    (hv : v.reverse = c' :: t') (hc' : isPySpace c' = false) :
    pyStrip (k ++ v) = k ++ v := by
  unfold pyStrip trimLeft
  have h1 : (k ++ v).dropWhile isPySpace = k ++ v := by
    rw [hk]
    show ((c :: (t ++ v)).dropWhile isPySpace) = _
    rw [List.dropWhile_cons, if_neg (by rw [hc]; simp)]
    rfl
  rw [h1]
  have h2 : (k ++ v).reverse.dropWhile isPySpace = (k ++ v).reverse := by
    rw [List.reverse_append, hv]
    show ((c' :: (t' ++ k.reverse)).dropWhile isPySpace) = _
    rw [List.dropWhile_cons, if_neg (by rw [hc']; simp)]
    rfl
  rw [h2, List.reverse_reverse]

theorem pyStrip_length_le (l : Line) : (pyStrip l).length ≤ (trimLeft l).length := by
  unfold pyStrip
  rw [List.length_reverse]
  calc ((trimLeft l).reverse.dropWhile isPySpace).length
      ≤ (trimLeft l).reverse.length := (List.dropWhile_sublist _).length_le
    _ = (trimLeft l).length := List.length_reverse _

theorem stripped_trimLeft {v : Line} (h : Stripped v) : trimLeft v = v := by
  have h2 : (pyStrip v).length ≤ (trimLeft v).length := pyStrip_length_le v
  rw [h] at h2
  show List.dropWhile isPySpace v = v
  refine (List.dropWhile_sublist _).eq_of_length ?_
  have h2' : v.length ≤ (List.dropWhile isPySpace v).length := h2
  have h1' : (List.dropWhile isPySpace v).length ≤ v.length :=
    (List.dropWhile_sublist _).length_le
  omega

theorem stripped_head {v : Line} (h : Stripped v) (hne : v ≠ []) :
    ∃ c t, v = c :: t ∧ isPySpace c = false := by
  obtain ⟨c, t, hct⟩ := List.exists_cons_of_ne_nil hne
  refine ⟨c, t, hct, ?_⟩
  by_contra hb
  have hsp : isPySpace c = true := by
    cases hcc : isPySpace c
    · exact absurd hcc hb
    · rfl
  have h1 := stripped_trimLeft h
  rw [hct, trimLeft_cons_space hsp] at h1
  have h2 : (trimLeft t).length ≤ t.length := (List.dropWhile_sublist _).length_le
  have h3 := congrArg List.length h1
  simp at h3
  omega

theorem stripped_rev_head {v : Line} (h : Stripped v) (hne : v ≠ []) :
    ∃ c t, v.reverse = c :: t ∧ isPySpace c = false := by
  have hrev : v.reverse.dropWhile isPySpace = v.reverse := by
    have h1 := h
    unfold Stripped pyStrip at h1
    rw [stripped_trimLeft h] at h1
    have h2 := congrArg List.reverse h1
    rw [List.reverse_reverse] at h2
    exact h2
  obtain ⟨c, t, hct⟩ := List.exists_cons_of_ne_nil
    (by simpa using hne : v.reverse ≠ [])
  refine ⟨c, t, hct, ?_⟩
  by_contra hb
  have hsp : isPySpace c = true := by
    cases hcc : isPySpace c
    · exact absurd hcc hb
    · rfl
  rw [hct, List.dropWhile_cons, if_pos (by rw [hsp])] at hrev
  have h2 : (t.dropWhile isPySpace).length ≤ t.length := (List.dropWhile_sublist _).length_le
  have h3 := congrArg List.length hrev
  simp at h3
  omega

theorem hasColon_false_iff {l : Line} : hasColon l = false ↔ ∀ c ∈ l, c ≠ ':' := by
  unfold hasColon
  rw [List.any_eq_false]
  simp

theorem hasColon_append (u v : Line) : hasColon (u ++ v) = (hasColon u || hasColon v) := by
  unfold hasColon
  rw [List.any_append]

theorem beforeColon_concat {k : Line} (rest : Line) (h : ∀ c ∈ k, c ≠ ':') :
    beforeColon (k ++ ':' :: rest) = k := by
  induction k with
  | nil => simp [beforeColon]
  | cons c t ih =>
    show beforeColon (c :: (t ++ ':' :: rest)) = _
    unfold beforeColon at *
    rw [List.takeWhile_cons, if_pos (by simp [h c (List.mem_cons_self _ _)]),
      ih (fun e he => h e (List.mem_cons_of_mem _ he))]

theorem afterColon_concat {k : Line} (rest : Line) (h : ∀ c ∈ k, c ≠ ':') :
    afterColon (k ++ ':' :: rest) = rest := by
  induction k with
  | nil => simp [afterColon]
  | cons c t ih =>
    show afterColon (c :: (t ++ ':' :: rest)) = _
    unfold afterColon at *
    rw [List.dropWhile_cons, if_pos (by simp [h c (List.mem_cons_self _ _)])]
    exact ih (fun e he => h e (List.mem_cons_of_mem _ he))

theorem pyStrip_pairChars (a b : Int) : pyStrip (pairChars a b) = pairChars a b := by
  obtain ⟨c, t, hct, hc⟩ := intStr_head a
  obtain ⟨c', t', hct', hc'⟩ := intStr_rev_head b
  exact pyStrip_concat hct hc
    (show (',' :: ' ' :: intStr b).reverse = c' :: (t' ++ [' ', ',']) by
      simp [hct'])
    (digit_not_space hc')

theorem pyStrip_intStr (n : Int) : pyStrip (intStr n) = intStr n :=
  pyStrip_of_all_nonspace (fun c hc => good_not_space (intStr_all_good n c hc))

theorem applyPageProp_size (p : AtlasPage) (a b : Int) :
    applyPageProp p ("size: ".toList ++ pairChars a b) = { p with size := some (a, b) } := by
  unfold applyPageProp
  simp only
  rw [show ("size: ".toList ++ pairChars a b) =
    "size".toList ++ ':' :: ' ' :: pairChars a b from rfl]
  rw [beforeColon_concat _ (by decide), afterColon_concat _ (by decide)]
  rw [show pyStrip "size".toList = "size".toList from rfl]
  rw [pyStrip_cons_space (by decide), pyStrip_pairChars]
  rw [if_pos rfl, pyIntPair_pairChars]

theorem applyPageProp_format (p : AtlasPage) (fmt : Line) (hS : Stripped fmt) :
    applyPageProp p ("format: ".toList ++ fmt) = { p with format := fmt } := by
  unfold applyPageProp
  simp only
  rw [show ("format: ".toList ++ fmt) = "format".toList ++ ':' :: ' ' :: fmt from rfl]
  rw [beforeColon_concat _ (by decide), afterColon_concat _ (by decide)]
  rw [show pyStrip "format".toList = "format".toList from rfl]
  rw [pyStrip_cons_space (by decide), hS]
  rw [if_neg (by decide), if_pos rfl]

theorem applyPageProp_filter (p : AtlasPage) (f1 f2 : Line)
    (hS1 : Stripped f1) (hS2 : Stripped f2) (hne1 : f1 ≠ []) (hne2 : f2 ≠ [])
    (hc1 : ∀ c ∈ f1, c ≠ ',') (hc2 : ∀ c ∈ f2, c ≠ ',') :
    applyPageProp p ("filter: ".toList ++ f1 ++ ", ".toList ++ f2) =
      { p with filter := (f1, f2) } := by
  unfold applyPageProp
  simp only
  rw [show ("filter: ".toList ++ f1 ++ ", ".toList ++ f2) =
    "filter".toList ++ ':' :: ' ' :: (f1 ++ ',' :: ' ' :: f2) from by simp]
  rw [beforeColon_concat _ (by decide), afterColon_concat _ (by decide)]
  rw [show pyStrip "filter".toList = "filter".toList from rfl]
  rw [pyStrip_cons_space (by decide)]
  obtain ⟨c, t, hct, hc⟩ := stripped_head hS1 hne1
  obtain ⟨c', t', hct', hc'⟩ := stripped_rev_head hS2 hne2
  rw [pyStrip_concat hct hc
    (show (',' :: ' ' :: f2).reverse = c' :: (t' ++ [' ', ',']) by simp [hct']) hc']
  rw [if_neg (by decide), if_neg (by decide)]
  rw [splitComma_append _ hc1,
    splitComma_no_comma (by
      intro e he
      rcases List.mem_cons.mp he with rfl | he'
      · decide
      · exact hc2 e he')]
  rw [if_pos rfl]
  show ({ p with filter := (pyStrip f1, pyStrip (' ' :: f2)) } : AtlasPage) = _
  rw [hS1, pyStrip_cons_space (by decide), hS2]

theorem applyPageProp_repeat (p : AtlasPage) (rep : Line) (hS : Stripped rep) :
    applyPageProp p ("repeat: ".toList ++ rep) = { p with repeatMode := rep } := by
  unfold applyPageProp
  simp only
  rw [show ("repeat: ".toList ++ rep) = "repeat".toList ++ ':' :: ' ' :: rep from rfl]
  rw [beforeColon_concat _ (by decide), afterColon_concat _ (by decide)]
  rw [show pyStrip "repeat".toList = "repeat".toList from rfl]
  rw [pyStrip_cons_space (by decide), hS]
  rw [if_neg (by decide), if_neg (by decide), if_neg (by decide), if_pos rfl]

theorem applyRegionProp_rotate (r : AtlasRegion) (b : Bool) :
    applyRegionProp r ("rotate: ".toList ++ boolChars b) = { r with rotate := b } := by
  unfold applyRegionProp
  simp only
  rw [show ("rotate: ".toList ++ boolChars b) =
    "rotate".toList ++ ':' :: ' ' :: boolChars b from rfl]
  rw [beforeColon_concat _ (by decide), afterColon_concat _ (by decide)]
  rw [show pyStrip "rotate".toList = "rotate".toList from rfl]
  rw [pyStrip_cons_space (by decide)]
  rw [if_pos rfl]
  cases b
  · rfl
  · rfl

theorem applyRegionProp_xy (r : AtlasRegion) (a b : Int) :
    applyRegionProp r ("xy: ".toList ++ pairChars a b) = { r with xy := (a, b) } := by
  unfold applyRegionProp
  simp only
  rw [show ("xy: ".toList ++ pairChars a b) =
    "xy".toList ++ ':' :: ' ' :: pairChars a b from rfl]
  rw [beforeColon_concat _ (by decide), afterColon_concat _ (by decide)]
  rw [show pyStrip "xy".toList = "xy".toList from rfl]
  rw [pyStrip_cons_space (by decide), pyStrip_pairChars]
  rw [if_neg (by decide), if_pos rfl, pyIntPair_pairChars]

theorem applyRegionProp_size (r : AtlasRegion) (a b : Int) :
    applyRegionProp r ("size: ".toList ++ pairChars a b) = { r with size := (a, b) } := by
  unfold applyRegionProp
  simp only
  rw [show ("size: ".toList ++ pairChars a b) =
    "size".toList ++ ':' :: ' ' :: pairChars a b from rfl]
  rw [beforeColon_concat _ (by decide), afterColon_concat _ (by decide)]
  rw [show pyStrip "size".toList = "size".toList from rfl]
  rw [pyStrip_cons_space (by decide), pyStrip_pairChars]
  rw [if_neg (by decide), if_neg (by decide), if_pos rfl, pyIntPair_pairChars]

theorem applyRegionProp_orig_set (r : AtlasRegion) (a b : Int) :
    applyRegionProp r ("orig: ".toList ++ pairChars a b) = { r with orig := (a, b) } := by
  unfold applyRegionProp
  simp only
  rw [show ("orig: ".toList ++ pairChars a b) =
    "orig".toList ++ ':' :: ' ' :: pairChars a b from rfl]
  rw [beforeColon_concat _ (by decide), afterColon_concat _ (by decide)]
  rw [show pyStrip "orig".toList = "orig".toList from rfl]
  rw [pyStrip_cons_space (by decide), pyStrip_pairChars]
  rw [if_neg (by decide), if_neg (by decide), if_neg (by decide), if_pos rfl,
    pyIntPair_pairChars]

theorem applyRegionProp_offset (r : AtlasRegion) (a b : Int) :
    applyRegionProp r ("offset: ".toList ++ pairChars a b) =
      { r with offset := (a, b) } := by
  unfold applyRegionProp
  simp only
  rw [show ("offset: ".toList ++ pairChars a b) =
    "offset".toList ++ ':' :: ' ' :: pairChars a b from rfl]
  rw [beforeColon_concat _ (by decide), afterColon_concat _ (by decide)]
  rw [show pyStrip "offset".toList = "offset".toList from rfl]
  rw [pyStrip_cons_space (by decide), pyStrip_pairChars]
  rw [if_neg (by decide), if_neg (by decide), if_neg (by decide), if_neg (by decide),
    if_pos rfl, pyIntPair_pairChars]

theorem applyRegionProp_index (r : AtlasRegion) (i : Int) :
    applyRegionProp r ("index: ".toList ++ intStr i) = { r with index := i } := by
  unfold applyRegionProp
  simp only
  rw [show ("index: ".toList ++ intStr i) =
    "index".toList ++ ':' :: ' ' :: intStr i from rfl]
  rw [beforeColon_concat _ (by decide), afterColon_concat _ (by decide)]
  rw [show pyStrip "index".toList = "index".toList from rfl]
  rw [pyStrip_cons_space (by decide), pyStrip_intStr]
  rw [if_neg (by decide), if_neg (by decide), if_neg (by decide), if_neg (by decide),
    if_neg (by decide), if_pos rfl, pyInt_intStr]

theorem startsWith1Space_eq_false {c : Char} {t : Line} (h : isPySpace c = false) :
    startsWith1Space (c :: t) = false := by
  have hc : c ≠ ' ' := fun heq => by subst heq; cases h
  unfold startsWith1Space
  split
  · next heq =>
    rw [List.cons.injEq] at heq
    exact absurd heq.1 hc
  · rfl

theorem startsWith2Spaces_eq_false {c : Char} {t : Line} (h : isPySpace c = false) :
    startsWith2Spaces (c :: t) = false := by
  have hc : c ≠ ' ' := fun heq => by subst heq; cases h
  unfold startsWith2Spaces
  split
  · next heq =>
    rw [List.cons.injEq] at heq
    exact absurd heq.1 hc
  · rfl

theorem modLast_append {α : Type} (f : α → α) (l : List α) (a : α) :
    modLast f (l ++ [a]) = l ++ [f a] := by
  induction l with
  | nil => rfl
  | cons b t ih =>
    rcases t with _ | ⟨c, u⟩
    · rfl
    · show b :: modLast f ((c :: u) ++ [a]) = b :: ((c :: u) ++ [f a])
      rw [ih]

theorem stepLine_normal {st : PState} (l : Line) (h : st.mode = .normal) :
    stepLine st l = stepNormal st l := by
  rcases st with ⟨pgs, b, mode⟩
  cases h
  rfl

theorem stepNormal_blank {st : PState} {l : Line} (h : pyStrip l = []) :
    stepNormal st l = { st with inProps := false } := by
  unfold stepNormal
  simp only [h]
  simp

theorem stepNormal_page {st : PState} {l : Line} (hS : Stripped l) (hne : l ≠ [])
    (hpng : endsWithPng l = true) :
    stepNormal st l = { st with pages := st.pages ++ [newPage l], inProps := true } := by
  obtain ⟨c, t, hct, hc⟩ := stripped_head hS hne
  have hS' : pyStrip l = l := hS
  unfold stepNormal
  simp only [hS']
  rw [if_neg hne,
    if_pos ⟨by rw [hct]; exact startsWith1Space_eq_false hc, hpng⟩]

theorem stepNormal_pageProp {st : PState} {l : Line} (hProps : st.inProps = true)
    (hne : pyStrip l ≠ [])
    (hpng : endsWithPng (pyStrip l) = false) (hcol : hasColon (pyStrip l) = true) :
    stepNormal st l =
      { st with pages := modLast (fun p => applyPageProp p (pyStrip l)) st.pages } := by
  unfold stepNormal
  simp only
  rw [if_neg hne, if_neg (by simp [hpng]), if_pos ⟨hProps, hcol⟩]

theorem stepNormal_region {st : PState} {l : Line} (hpages : st.pages ≠ [])
    (hProps : st.inProps = false) (hne : pyStrip l ≠ [])
    (hsw : startsWith1Space l = false) (hpng : endsWithPng (pyStrip l) = false)
    (hcol : hasColon (pyStrip l) = false) :
    stepNormal st l = { st with mode := .inRegion (initRegion (pyStrip l)) false } := by
  unfold stepNormal
  simp only
  rw [if_neg hne, if_neg (by simp [hpng]), if_neg (by simp [hProps]),
    if_pos ⟨hpages, hProps, hcol, hsw⟩]

theorem stepLine_terminator {st : PState} {l : Line}
    (hne : pyStrip l ≠ []) (h2 : startsWith2Spaces l = false) :
    stepLine st l = stepNormal (settle st) l := by
  rcases st with ⟨pgs, b, mode⟩
  cases mode with
  | normal => rfl
  | inRegion r f =>
    show (if pyStrip l ≠ [] ∧ startsWith2Spaces l = false then _ else _) = _
    rw [if_pos ⟨hne, h2⟩]
    rfl

theorem stepLine_regionProp {pgs : List AtlasPage} {b : Bool} {r : AtlasRegion}
    {f : Bool} {l : Line} (h2 : startsWith2Spaces l = true)
    (hcol : hasColon (pyStrip l) = true) :
    stepLine ⟨pgs, b, .inRegion r f⟩ l =
      ⟨pgs, b, .inRegion (applyRegionProp r (pyStrip l)) true⟩ := by
  show (if pyStrip l ≠ [] ∧ startsWith2Spaces l = false then _ else _) = _
  rw [if_neg (by simp [h2]), if_pos ⟨h2, hcol⟩]

theorem stepLine_inRegion_nil {pgs : List AtlasPage} {b : Bool} {r : AtlasRegion}
    {f : Bool} :
    stepLine ⟨pgs, b, .inRegion r f⟩ [] = ⟨pgs, b, .inRegion r f⟩ := rfl

theorem endsWithPng_of_rev_head {l : Line} {c : Char} {t : Line}
    (h : l.reverse = c :: t) (hc : c ≠ 'g') : endsWithPng l = false := by
  unfold endsWithPng
  rw [h]
  split
  · next heq =>
    rw [List.cons.injEq] at heq
    exact absurd heq.1 hc
  · rfl

theorem rev_head_append_pair (u : Line) (a b : Int) :
    ∃ c t, (u ++ pairChars a b).reverse = c :: t ∧ isDigitChar c = true := by
  obtain ⟨c', t', hct', hc'⟩ := intStr_rev_head b
  refine ⟨c', t' ++ ([' ', ','] ++ ((intStr a).reverse ++ u.reverse)), ?_, hc'⟩
  simp [pairChars, hct']

theorem endsWithPng_append_pair (u : Line) (a b : Int) :
    endsWithPng (u ++ pairChars a b) = false := by
  obtain ⟨c, t, hct, hc⟩ := rev_head_append_pair u a b
  exact endsWithPng_of_rev_head hct (digit_ne hc (by decide))

theorem endsWithPng_append_intStr (u : Line) (n : Int) :
    endsWithPng (u ++ intStr n) = false := by
  obtain ⟨c', t', hct', hc'⟩ := intStr_rev_head n
  refine endsWithPng_of_rev_head (t := t' ++ u.reverse) ?_ (digit_ne hc' (by decide))
  rw [List.reverse_append, hct']
  rfl

theorem endsWithPng_space_append {v : Line} (w : Line) (hne : v ≠ [])
    (h : endsWithPng v = false) : endsWithPng (w ++ ' ' :: v) = false := by
  have hrev : (w ++ ' ' :: v).reverse = v.reverse ++ ' ' :: w.reverse := by simp
  rcases h4 : v.reverse with _ | ⟨a, t⟩
  · exact absurd (by simpa using h4) hne
  rcases t with _ | ⟨b, t2⟩
  · unfold endsWithPng
    rw [hrev, h4]
    show (match a :: ' ' :: w.reverse with
          | 'g' :: 'n' :: 'p' :: '.' :: _ => true
          | _ => false) = false
    split
    · next heq =>
      rw [List.cons.injEq, List.cons.injEq] at heq
      exact absurd heq.2.1 (by decide)
    · rfl
  rcases t2 with _ | ⟨c, t3⟩
  · unfold endsWithPng
    rw [hrev, h4]
    show (match a :: b :: ' ' :: w.reverse with
          | 'g' :: 'n' :: 'p' :: '.' :: _ => true
          | _ => false) = false
    split
    · next heq =>
      rw [List.cons.injEq, List.cons.injEq, List.cons.injEq] at heq
      exact absurd heq.2.2.1 (by decide)
    · rfl
  rcases t3 with _ | ⟨d, t4⟩
  · unfold endsWithPng
    rw [hrev, h4]
    show (match a :: b :: c :: ' ' :: w.reverse with
          | 'g' :: 'n' :: 'p' :: '.' :: _ => true
          | _ => false) = false
    split
    · next heq =>
      rw [List.cons.injEq, List.cons.injEq, List.cons.injEq, List.cons.injEq] at heq
      exact absurd heq.2.2.2.1 (by decide)
    · rfl
  · unfold endsWithPng at h ⊢
    rw [h4] at h
    rw [hrev, h4]
    show (match a :: b :: c :: d :: (t4 ++ ' ' :: w.reverse) with
          | 'g' :: 'n' :: 'p' :: '.' :: _ => true
          | _ => false) = false
    split
    · next heq =>
      rw [List.cons.injEq, List.cons.injEq, List.cons.injEq, List.cons.injEq] at heq
      obtain ⟨rfl, rfl, rfl, rfl, -⟩ := heq
      simp at h
    · rfl

theorem hasColon_left {u : Line} (h : hasColon u = true) (v : Line) :
    hasColon (u ++ v) = true := by
  rw [hasColon_append, h]
  rfl

theorem toList_append_ne_nil (s : String) (hs : s.toList ≠ []) (v : Line) :
    s.toList ++ v ≠ [] := by
  intro h
  rcases List.append_eq_nil.mp h with ⟨h1, -⟩
  exact hs h1

theorem pyStrip_key_pair {k : Line} {c : Char} {t : Line} (hk : k = c :: t)
    (hc : isPySpace c = false) (a b : Int) :
    pyStrip (k ++ pairChars a b) = k ++ pairChars a b := by
  obtain ⟨c', t', hct', hc'⟩ := intStr_rev_head b
  exact pyStrip_concat hk hc
    (show (pairChars a b).reverse = c' :: (t' ++ ([' ', ','] ++ (intStr a).reverse)) by
      simp [pairChars, hct'])
    (digit_not_space hc')

theorem pyStrip_key_str {k : Line} {c : Char} {t : Line} (hk : k = c :: t)
    (hc : isPySpace c = false) {v : Line} (hS : Stripped v) (hne : v ≠ []) :
    pyStrip (k ++ v) = k ++ v := by
  obtain ⟨c', t', hct', hc'⟩ := stripped_rev_head hS hne
  exact pyStrip_concat hk hc hct' hc'

theorem pyStrip_key_intStr {k : Line} {c : Char} {t : Line} (hk : k = c :: t)
    (hc : isPySpace c = false) (n : Int) :
    pyStrip (k ++ intStr n) = k ++ intStr n := by
  obtain ⟨c', t', hct', hc'⟩ := intStr_rev_head n
  exact pyStrip_concat hk hc hct' (digit_not_space hc')

theorem stepLine_pageProp {pgs : List AtlasPage} {p : AtlasPage} {l : Line}
    (hS : pyStrip l = l) (hne : l ≠ [])
    (hpng : endsWithPng l = false) (hcol : hasColon l = true) :
    stepLine ⟨pgs ++ [p], true, .normal⟩ l =
      ⟨pgs ++ [applyPageProp p l], true, .normal⟩ := by
  rw [stepLine_normal l rfl,
    stepNormal_pageProp rfl (by rw [hS]; exact hne) (by rw [hS]; exact hpng)
      (by rw [hS]; exact hcol)]
  show (⟨modLast (fun q => applyPageProp q (pyStrip l)) (pgs ++ [p]), true,
    .normal⟩ : PState) = _
  rw [modLast_append, hS]

theorem run_sizeSeg (o : Option (Int × Int)) (pgs : List AtlasPage) (p : AtlasPage) :
    (match o with
     | some wh => ["size: ".toList ++ pairChars wh.1 wh.2]
     | none => ([] : List Line)).foldl stepLine ⟨pgs ++ [p], true, .normal⟩ =
      ⟨pgs ++ [match o with
               | some wh => { p with size := some wh }
               | none => p], true, .normal⟩ := by
  rcases o with _ | ⟨a, b⟩
  · rfl
  · have hSl : pyStrip ("size: ".toList ++ pairChars a b) =
        "size: ".toList ++ pairChars a b :=
      pyStrip_key_pair (show "size: ".toList = 's' :: "ize: ".toList from rfl)
        (by decide) a b
    rw [List.foldl_cons, List.foldl_nil,
      stepLine_pageProp hSl (toList_append_ne_nil _ (by decide) _)
        (endsWithPng_append_pair _ a b) (hasColon_left (by decide) _),
      applyPageProp_size]

theorem run_fmtSeg (fmt : Line) (hS : Stripped fmt) (hpng : endsWithPng fmt = false)
    (pgs : List AtlasPage) (p : AtlasPage) :
    (if fmt ≠ [] then ["format: ".toList ++ fmt] else []).foldl stepLine
        ⟨pgs ++ [p], true, .normal⟩ =
      ⟨pgs ++ [if fmt ≠ [] then { p with format := fmt } else p], true, .normal⟩ := by
  by_cases hne : fmt ≠ []
  · have hSl : pyStrip ("format: ".toList ++ fmt) = "format: ".toList ++ fmt :=
      pyStrip_key_str (show "format: ".toList = 'f' :: "ormat: ".toList from rfl)
        (by decide) hS hne
    have hpngl : endsWithPng ("format: ".toList ++ fmt) = false := by
      rw [show ("format: ".toList ++ fmt) = "format:".toList ++ ' ' :: fmt from rfl]
      exact endsWithPng_space_append _ hne hpng
    rw [if_pos hne, if_pos hne, List.foldl_cons, List.foldl_nil,
      stepLine_pageProp hSl (toList_append_ne_nil _ (by decide) _)
        hpngl (hasColon_left (by decide) _),
      applyPageProp_format p fmt hS]
  · rw [if_neg hne, if_neg hne, List.foldl_nil]

theorem run_filterSeg (f1 f2 : Line)
    (h : (f1, f2) = (([] : Line), ([] : Line)) ∨
      (f1 ≠ [] ∧ f2 ≠ [] ∧ Stripped f1 ∧ Stripped f2 ∧ (',' ∉ f1) ∧ (',' ∉ f2) ∧
        endsWithPng f2 = false))
    (pgs : List AtlasPage) (p : AtlasPage) :
    (if f1 ≠ [] ∧ f2 ≠ [] then
        ["filter: ".toList ++ f1 ++ ", ".toList ++ f2] else []).foldl stepLine
        ⟨pgs ++ [p], true, .normal⟩ =
      ⟨pgs ++ [if f1 ≠ [] ∧ f2 ≠ [] then { p with filter := (f1, f2) } else p],
        true, .normal⟩ := by
  rcases h with h | ⟨hne1, hne2, hS1, hS2, hc1, hc2, hpng⟩
  · rw [Prod.mk.injEq] at h
    rw [if_neg (by simp [h.1]), if_neg (by simp [h.1]), List.foldl_nil]
  · have hSl : pyStrip ("filter: ".toList ++ f1 ++ ", ".toList ++ f2) =
        "filter: ".toList ++ f1 ++ ", ".toList ++ f2 := by
      rw [show ("filter: ".toList ++ f1 ++ ", ".toList ++ f2) =
        "filter: ".toList ++ (f1 ++ ',' :: ' ' :: f2) from by simp]
      obtain ⟨c', t', hct', hc'⟩ := stripped_rev_head hS2 hne2
      exact pyStrip_concat rfl (by decide)
        (show (f1 ++ ',' :: ' ' :: f2).reverse =
          c' :: (t' ++ ([' ', ','] ++ f1.reverse)) by simp [hct']) hc'
    have hcol : hasColon ("filter: ".toList ++ f1 ++ ", ".toList ++ f2) = true := by
      rw [show ("filter: ".toList ++ f1 ++ ", ".toList ++ f2) =
        "filter: ".toList ++ (f1 ++ ',' :: ' ' :: f2) from by simp]
      exact hasColon_left (by decide) _
    have hpngl : endsWithPng ("filter: ".toList ++ f1 ++ ", ".toList ++ f2) = false := by
      rw [show ("filter: ".toList ++ f1 ++ ", ".toList ++ f2) =
        ("filter: ".toList ++ f1 ++ [',']) ++ ' ' :: f2 from by simp]
      exact endsWithPng_space_append _ hne2 hpng
    have hnl : ("filter: ".toList ++ f1 ++ ", ".toList ++ f2) ≠ [] := by
      rw [show ("filter: ".toList ++ f1 ++ ", ".toList ++ f2) =
        "filter: ".toList ++ (f1 ++ ',' :: ' ' :: f2) from by simp]
      exact toList_append_ne_nil _ (by decide) _
    rw [if_pos ⟨hne1, hne2⟩, if_pos ⟨hne1, hne2⟩, List.foldl_cons, List.foldl_nil,
      stepLine_pageProp hSl hnl hpngl hcol,
      applyPageProp_filter p f1 f2 hS1 hS2 hne1 hne2
        (fun c hc heq => hc1 (heq ▸ hc)) (fun c hc heq => hc2 (heq ▸ hc))]

theorem run_repSeg (rep : Line) (hS : Stripped rep) (hpng : endsWithPng rep = false)
    (pgs : List AtlasPage) (p : AtlasPage) :
    (if rep ≠ [] then ["repeat: ".toList ++ rep] else []).foldl stepLine
        ⟨pgs ++ [p], true, .normal⟩ =
      ⟨pgs ++ [if rep ≠ [] then { p with repeatMode := rep } else p], true,
        .normal⟩ := by
  by_cases hne : rep ≠ []
  · have hSl : pyStrip ("repeat: ".toList ++ rep) = "repeat: ".toList ++ rep :=
      pyStrip_key_str (show "repeat: ".toList = 'r' :: "epeat: ".toList from rfl)
        (by decide) hS hne
    have hpngl : endsWithPng ("repeat: ".toList ++ rep) = false := by
      rw [show ("repeat: ".toList ++ rep) = "repeat:".toList ++ ' ' :: rep from rfl]
      exact endsWithPng_space_append _ hne hpng
    rw [if_pos hne, if_pos hne, List.foldl_cons, List.foldl_nil,
      stepLine_pageProp hSl (toList_append_ne_nil _ (by decide) _)
        hpngl (hasColon_left (by decide) _),
      applyPageProp_repeat p rep hS]
  · rw [if_neg hne, if_neg hne, List.foldl_nil]

theorem run_pagePropLines (P : AtlasPage) (hP : CanonPage P) (pgs : List AtlasPage) :
    (pagePropLines P).foldl stepLine ⟨pgs ++ [newPage P.name], true, .normal⟩ =
      ⟨pgs ++ [{ P with regions := [] }], true, .normal⟩ := by
  obtain ⟨hSn, hpngn, hon, hSf, hpngf, hof, hfil, hSr, hpngr, hor, hcreg⟩ := hP
  unfold pagePropLines
  rw [List.foldl_append, List.foldl_append, List.foldl_append,
    run_sizeSeg P.size pgs (newPage P.name), run_fmtSeg P.format hSf hpngf,
    run_filterSeg P.filter.1 P.filter.2
      (by
        rcases hfil with h | h
        · exact Or.inl (by rw [← h])
        · exact Or.inr ⟨h.1, h.2.1, h.2.2.1, h.2.2.2.1, h.2.2.2.2.1, h.2.2.2.2.2.1,
            h.2.2.2.2.2.2.1⟩),
    run_repSeg P.repeatMode hSr hpngr]
  congr 3
  rcases hsz : P.size with _ | ⟨a, b⟩ <;>
    by_cases hfm : P.format = [] <;>
      rcases hfil with hflt | ⟨hne1, hne2, -⟩ <;>
        by_cases hrp : P.repeatMode = [] <;>
          simp_all [newPage]

theorem stepLine_regionPropLine {pgs : List AtlasPage} {b : Bool} {r : AtlasRegion}
    {f : Bool} {body : Line} (hS : pyStrip body = body) (hcol : hasColon body = true) :
    stepLine ⟨pgs, b, .inRegion r f⟩ (' ' :: ' ' :: body) =
      ⟨pgs, b, .inRegion (applyRegionProp r body) true⟩ := by
  have hstrip : pyStrip (' ' :: ' ' :: body) = body := by
    rw [pyStrip_cons_space (by decide), pyStrip_cons_space (by decide), hS]
  have h2 : startsWith2Spaces (' ' :: ' ' :: body) = true := rfl
  rw [stepLine_regionProp h2 (by rw [hstrip]; exact hcol), hstrip]

theorem boolChars_stripped (b : Bool) : Stripped (boolChars b) := by
  cases b <;> rfl

theorem boolChars_ne_nil (b : Bool) : boolChars b ≠ [] := by
  cases b <;> decide

theorem run_regionPropLines (r : AtlasRegion) (hr : CanonRegion r)
    (pgs : List AtlasPage) (b : Bool) :
    (regionPropLines r).foldl stepLine ⟨pgs, b, .inRegion (initRegion r.name) false⟩ =
      ⟨pgs, b, .inRegion r true⟩ := by
  obtain ⟨hSn, hnen, hcoln, hpngn, hon, hidx⟩ := hr
  have hrot : pyStrip ("rotate: ".toList ++ boolChars r.rotate) =
      "rotate: ".toList ++ boolChars r.rotate :=
    pyStrip_key_str (show "rotate: ".toList = 'r' :: "otate: ".toList from rfl)
      (by decide) (boolChars_stripped r.rotate) (boolChars_ne_nil r.rotate)
  have hxy : pyStrip ("xy: ".toList ++ pairChars r.xy.1 r.xy.2) =
      "xy: ".toList ++ pairChars r.xy.1 r.xy.2 :=
    pyStrip_key_pair (show "xy: ".toList = 'x' :: "y: ".toList from rfl)
      (by decide) r.xy.1 r.xy.2
  have hsz : pyStrip ("size: ".toList ++ pairChars r.size.1 r.size.2) =
      "size: ".toList ++ pairChars r.size.1 r.size.2 :=
    pyStrip_key_pair (show "size: ".toList = 's' :: "ize: ".toList from rfl)
      (by decide) r.size.1 r.size.2
  have hog : pyStrip ("orig: ".toList ++ pairChars r.orig.1 r.orig.2) =
      "orig: ".toList ++ pairChars r.orig.1 r.orig.2 :=
    pyStrip_key_pair (show "orig: ".toList = 'o' :: "rig: ".toList from rfl)
      (by decide) r.orig.1 r.orig.2
  have hoff : pyStrip ("offset: ".toList ++ pairChars r.offset.1 r.offset.2) =
      "offset: ".toList ++ pairChars r.offset.1 r.offset.2 :=
    pyStrip_key_pair (show "offset: ".toList = 'o' :: "ffset: ".toList from rfl)
      (by decide) r.offset.1 r.offset.2
  unfold regionPropLines
  rw [show ("  rotate: ".toList ++ boolChars r.rotate) =
      ' ' :: ' ' :: ("rotate: ".toList ++ boolChars r.rotate) from rfl,
    show ("  xy: ".toList ++ pairChars r.xy.1 r.xy.2) =
      ' ' :: ' ' :: ("xy: ".toList ++ pairChars r.xy.1 r.xy.2) from rfl,
    show ("  size: ".toList ++ pairChars r.size.1 r.size.2) =
      ' ' :: ' ' :: ("size: ".toList ++ pairChars r.size.1 r.size.2) from rfl,
    show ("  orig: ".toList ++ pairChars r.orig.1 r.orig.2) =
      ' ' :: ' ' :: ("orig: ".toList ++ pairChars r.orig.1 r.orig.2) from rfl,
    show ("  offset: ".toList ++ pairChars r.offset.1 r.offset.2) =
      ' ' :: ' ' :: ("offset: ".toList ++ pairChars r.offset.1 r.offset.2) from rfl]
  rw [List.foldl_append, List.foldl_cons, List.foldl_cons, List.foldl_cons,
    List.foldl_cons, List.foldl_cons, List.foldl_nil,
    stepLine_regionPropLine hrot (hasColon_left (by decide) _),
    applyRegionProp_rotate,
    stepLine_regionPropLine hxy (hasColon_left (by decide) _),
    applyRegionProp_xy,
    stepLine_regionPropLine hsz (hasColon_left (by decide) _),
    applyRegionProp_size,
    stepLine_regionPropLine hog (hasColon_left (by decide) _),
    applyRegionProp_orig_set,
    stepLine_regionPropLine hoff (hasColon_left (by decide) _),
    applyRegionProp_offset]
  rcases hidx with hge | heq
  · have hix : pyStrip ("index: ".toList ++ intStr r.index) =
        "index: ".toList ++ intStr r.index :=
      pyStrip_key_intStr (show "index: ".toList = 'i' :: "ndex: ".toList from rfl)
        (by decide) r.index
    rw [if_pos hge,
      show ("  index: ".toList ++ intStr r.index) =
        ' ' :: ' ' :: ("index: ".toList ++ intStr r.index) from rfl,
      List.foldl_cons, List.foldl_nil,
      stepLine_regionPropLine hix (hasColon_left (by decide) _),
      applyRegionProp_index]
    rcases r with ⟨nm, xy, sz, og, off, rot, idx⟩
    rfl
  · rw [if_neg (by rw [heq]; decide), List.foldl_nil]
    rcases r with ⟨nm, xy, sz, og, off, rot, idx⟩
    simp only at heq
    subst heq
    rfl

theorem modLast_ne_nil {α : Type} (f : α → α) {l : List α} (h : l ≠ []) :
    modLast f l ≠ [] := by
  rcases l with _ | ⟨a, t⟩
  · exact absurd rfl h
  · rcases t with _ | ⟨c, u⟩
    · exact List.cons_ne_nil _ _
    · exact List.cons_ne_nil _ _

theorem modLast_id {α : Type} (l : List α) : modLast (fun a => a) l = l := by
  induction l with
  | nil => rfl
  | cons a t ih =>
    rcases t with _ | ⟨c, u⟩
    · rfl
    · show a :: modLast (fun x => x) (c :: u) = a :: c :: u
      rw [ih]

theorem modLast_congr {α : Type} {f g : α → α} (h : ∀ a, f a = g a) (l : List α) :
    modLast f l = modLast g l := by
  induction l with
  | nil => rfl
  | cons a t ih =>
    rcases t with _ | ⟨c, u⟩
    · show [f a] = [g a]
      rw [h a]
    · show a :: modLast f (c :: u) = a :: modLast g (c :: u)
      rw [ih]

theorem modLast_modLast {α : Type} (f g : α → α) (l : List α) :
    modLast f (modLast g l) = modLast (fun a => f (g a)) l := by
  induction l with
  | nil => rfl
  | cons a t ih =>
    rcases t with _ | ⟨c, u⟩
    · rfl
    · show modLast f (a :: modLast g (c :: u)) = a :: modLast (fun x => f (g x)) (c :: u)
      rw [← ih]
      rcases hX : modLast g (c :: u) with _ | ⟨d, v⟩
      · exact absurd hX (modLast_ne_nil g (List.cons_ne_nil _ _))
      · rfl

theorem settle_mode (st : PState) : (settle st).mode = .normal := by
  rcases st with ⟨pgs, b, mode⟩
  rcases mode with _ | ⟨r, f⟩
  · rfl
  · rcases f
    · rfl
    · rfl

theorem settle_pending (pgs : List AtlasPage) (b : Bool) (r : AtlasRegion) :
    settle ⟨pgs, b, .inRegion r true⟩ =
      ⟨modLast (fun p => { p with regions := p.regions ++ [r] }) pgs, b, .normal⟩ := rfl

theorem settle_normal (pgs : List AtlasPage) (b : Bool) :
    settle ⟨pgs, b, .normal⟩ = ⟨pgs, b, .normal⟩ := rfl

theorem run_regionBlock_start (r : AtlasRegion) (hr : CanonRegion r)
    (pgs : List AtlasPage) (hpgs : pgs ≠ []) (b : Bool) :
    (regionBlock r).foldl stepLine ⟨pgs, b, .normal⟩ =
      ⟨pgs, false, .inRegion r true⟩ := by
  have hSn' : pyStrip r.name = r.name := hr.1
  obtain ⟨c, t, hct, hc⟩ := stripped_head hr.1 hr.2.1
  show (([] : Line) :: r.name :: regionPropLines r).foldl stepLine _ = _
  rw [List.foldl_cons, stepLine_normal _ rfl,
    stepNormal_blank (show pyStrip ([] : Line) = [] from rfl), List.foldl_cons,
    stepLine_normal _ rfl,
    stepNormal_region hpgs rfl (by rw [hSn']; exact hr.2.1)
      (by rw [hct]; exact startsWith1Space_eq_false hc)
      (by rw [hSn']; exact hr.2.2.2.1) (by rw [hSn']; exact hr.2.2.1),
    hSn']
  exact run_regionPropLines r hr pgs false

theorem run_regionBlock_pending (r' : AtlasRegion) (hr' : CanonRegion r')
    (pgs : List AtlasPage) (hpgs : pgs ≠ []) (r : AtlasRegion) :
    (regionBlock r').foldl stepLine ⟨pgs, false, .inRegion r true⟩ =
      ⟨modLast (fun p => { p with regions := p.regions ++ [r] }) pgs, false,
        .inRegion r' true⟩ := by
  have hSn' : pyStrip r'.name = r'.name := hr'.1
  obtain ⟨c, t, hct, hc⟩ := stripped_head hr'.1 hr'.2.1
  show (([] : Line) :: r'.name :: regionPropLines r').foldl stepLine _ = _
  rw [List.foldl_cons, stepLine_inRegion_nil, List.foldl_cons,
    stepLine_terminator (by rw [hSn']; exact hr'.2.1)
      (by rw [hct]; exact startsWith2Spaces_eq_false hc),
    settle_pending,
    stepNormal_region (modLast_ne_nil _ hpgs) rfl (by rw [hSn']; exact hr'.2.1)
      (by rw [hct]; exact startsWith1Space_eq_false hc)
      (by rw [hSn']; exact hr'.2.2.2.1) (by rw [hSn']; exact hr'.2.2.1),
    hSn']
  exact run_regionPropLines r' hr' _ false

theorem run_regionChain : ∀ (rs : List AtlasRegion), (∀ x ∈ rs, CanonRegion x) →
    ∀ (pgs : List AtlasPage), pgs ≠ [] → ∀ (r : AtlasRegion),
    (rs.flatMap regionBlock ++ [([] : Line)]).foldl stepLine
        ⟨pgs, false, .inRegion r true⟩ =
      ⟨modLast (fun p => { p with regions := p.regions ++ (r :: rs).dropLast }) pgs,
        false, .inRegion ((r :: rs).getLast (List.cons_ne_nil r rs)) true⟩
  | [], hc, pgs, hpgs, r => by
    show stepLine ⟨pgs, false, .inRegion r true⟩ [] = _
    rw [stepLine_inRegion_nil]
    have h1 : modLast (fun p => { p with regions := p.regions ++ [r].dropLast }) pgs
        = pgs := by
      rw [modLast_congr (g := fun a => a) (fun a => by simp) pgs, modLast_id]
    rw [h1]
    rfl
  | r₂ :: rs', hc, pgs, hpgs, r => by
    rw [show (r₂ :: rs').flatMap regionBlock ++ [([] : Line)] =
      regionBlock r₂ ++ (rs'.flatMap regionBlock ++ [([] : Line)]) from by simp,
      List.foldl_append,
      run_regionBlock_pending r₂ (hc r₂ (List.mem_cons_self r₂ rs')) pgs hpgs r,
      run_regionChain rs' (fun x hx => hc x (List.mem_cons_of_mem r₂ hx)) _
        (modLast_ne_nil _ hpgs) r₂,
      modLast_modLast]
    have h1 : modLast
        (fun a => { ({ a with regions := a.regions ++ [r] } : AtlasPage) with
          regions := ({ a with regions := a.regions ++ [r] } : AtlasPage).regions ++
            (r₂ :: rs').dropLast }) pgs =
        modLast (fun p => { p with regions := p.regions ++ (r :: r₂ :: rs').dropLast })
          pgs :=
      modLast_congr (fun a => by simp) pgs
    have h2 : (r₂ :: rs').getLast (List.cons_ne_nil r₂ rs') =
        (r :: r₂ :: rs').getLast (List.cons_ne_nil r (r₂ :: rs')) :=
      (List.getLast_cons (List.cons_ne_nil r₂ rs')).symm
    rw [h1, h2]

theorem run_pageLines (P : AtlasPage) (hP : CanonPage P) (st : PState) :
    settle ((pageLines P).foldl stepLine st) =
      ⟨(settle st).pages ++ [P], false, .normal⟩ := by
  have hSn' : pyStrip P.name = P.name := hP.1
  have hpng : endsWithPng P.name = true := hP.2.1
  have hnn : P.name ≠ [] := by
    intro h
    rw [h] at hpng
    exact absurd hpng (by decide)
  obtain ⟨c, t, hct, hc⟩ := stripped_head hP.1 hnn
  have h2 : startsWith2Spaces P.name = false := by
    rw [hct]
    exact startsWith2Spaces_eq_false hc
  have hne' : pyStrip P.name ≠ [] := by
    rw [hSn']
    exact hnn
  unfold pageLines
  rw [List.foldl_cons, stepLine_terminator hne' h2, stepNormal_page hP.1 hnn hpng,
    settle_mode, List.append_assoc, List.foldl_append,
    run_pagePropLines P hP (settle st).pages]
  rcases hreg : P.regions with _ | ⟨r, rs⟩
  · rw [show ([] : List AtlasRegion).flatMap regionBlock ++ [([] : Line)] =
      [([] : Line)] from rfl, List.foldl_cons, List.foldl_nil, stepLine_normal _ rfl,
      stepNormal_blank (show pyStrip ([] : Line) = [] from rfl)]
    have hPP : ({ P with regions := ([] : List AtlasRegion) } : AtlasPage) = P := by
      rw [← hreg]
    rw [hPP]
    rfl
  · have hcanon : ∀ x ∈ r :: rs, CanonRegion x := by
      rw [← hreg]
      exact hP.2.2.2.2.2.2.2.2.2.2
    rw [show (r :: rs).flatMap regionBlock ++ [([] : Line)] =
      regionBlock r ++ (rs.flatMap regionBlock ++ [([] : Line)]) from by simp,
      List.foldl_append,
      run_regionBlock_start r (hcanon r (List.mem_cons_self r rs)) _
        (by simp) true,
      run_regionChain rs (fun x hx => hcanon x (List.mem_cons_of_mem r hx)) _
        (by simp) r,
      settle_pending, modLast_modLast]
    have hfun : ∀ a : AtlasPage,
        ({ ({ a with regions := a.regions ++ (r :: rs).dropLast } : AtlasPage) with
          regions :=
            ({ a with regions := a.regions ++ (r :: rs).dropLast } : AtlasPage).regions
              ++ [(r :: rs).getLast (List.cons_ne_nil r rs)] } : AtlasPage) =
        { a with regions := a.regions ++ P.regions } := fun a => by
      simp [List.append_assoc, List.dropLast_append_getLast, hreg]
    rw [modLast_congr hfun, modLast_append]
    have hPP : ({ ({ P with regions := ([] : List AtlasRegion) } : AtlasPage) with
        regions := ([] : List AtlasRegion) ++ P.regions } : AtlasPage) = P := rfl
    rw [hPP]

theorem run_model : ∀ (ms : List AtlasPage), (∀ p ∈ ms, CanonPage p) → ∀ (st : PState),
    (settle ((ms.flatMap pageLines).foldl stepLine st)).pages = (settle st).pages ++ ms
  | [], hc, st => by simp
  | P :: ms', hc, st => by
    rw [show (P :: ms').flatMap pageLines = pageLines P ++ ms'.flatMap pageLines
        from by simp,
      List.foldl_append,
      run_model ms' (fun p hp => hc p (List.mem_cons_of_mem P hp))
        ((pageLines P).foldl stepLine st),
      run_pageLines P (hc P (List.mem_cons_self P ms')) st]
    simp

/-- Parsing the canonical serialization of a canonical model reproduces the
model exactly. -/
theorem parse_save_atlas (m : List AtlasPage) (hm : CanonModel m) :
    parse_file (save_atlas m) = m := by
  unfold parse_file save_atlas
  rw [finishParse_eq_settle, run_model m hm ⟨[], false, .normal⟩]
  rfl

/-- C2 (amended): round-trip fidelity holds on canonical text — for any atlas
text that is the serialization of a canonical model (the subset of the §4.1
grammar that `save_atlas` itself emits), re-serializing what `parse_file`
produced and parsing it again yields the same result on every modeled field,
i.e. `parse_file (save_atlas (parse_file t)) = parse_file t`.  On general
well-formed text the round trip fails (`c2_counterexample`). -/
theorem c2_roundtrip (t : List Line) (h : CanonicalText t) :
    parse_file (save_atlas (parse_file t)) = parse_file t := by
  obtain ⟨m, hm, rfl⟩ := h
  rw [parse_save_atlas m hm]
  exact parse_save_atlas m hm

theorem c2_roundtrip_witness :
    CanonicalText (save_atlas [demoPage]) ∧
      parse_file (save_atlas (parse_file (save_atlas [demoPage]))) =
        parse_file (save_atlas [demoPage]) :=
  ⟨⟨[demoPage], by decide, rfl⟩, c2_roundtrip _ ⟨[demoPage], by decide, rfl⟩⟩

/-- C2 (counterexample): the well-formed text `c2Lines`, whose region block
carries `index: -5`, does not round-trip on the modeled `index` field:
`parse_file` yields index `-5`, but `save_atlas` writes an `index:` line only
for indices `≥ 0`, so parsing its output yields the `-1` initializer
instead. -/
theorem c2_counterexample :
    parse_file (save_atlas (parse_file c2Lines)) ≠ parse_file c2Lines ∧
      (parse_file c2Lines).flatMap (fun p => p.regions.map (fun r => r.index)) =
        [-5] ∧
      (parse_file (save_atlas (parse_file c2Lines))).flatMap
        (fun p => p.regions.map (fun r => r.index)) = [-1] := by
  decide

end Spine
